import Mathlib

/-
Verification of the quaestor template engine (src/quaestor/core/template_engine.py)
and updater (src/quaestor/updater.py).

Strings are modelled as List Char.  The Python re constructs used by the source
(character classes, greedy and lazy star, plus, capture groups, literal text,
re.sub and re.findall with leftmost non-overlapping matching) are modelled by a
small continuation-passing backtracking matcher, with each source pattern
transliterated node by node.  All definitions are executable.
-/

namespace Quaestor

/-- Association-list lookup by key, first match wins (models Python dict access;
keys in a dict are unique, and insertion order is the iteration order). -/
def lookupL {α : Type} (l : List (List Char × α)) (k : List Char) : Option α :=
  match l with
  | [] => Option.none
  | (k2, v) :: rest => if k2 = k then some v else lookupL rest k

/-- The exact set of code points matched by the Python 3 regex class backslash-s
on str patterns (ASCII whitespace, the four information separators, NEL, NBSP
and the Unicode space separators). -/
def isPyWs (c : Char) : Bool :=
  c.toNat ∈ [0x9, 0xa, 0xb, 0xc, 0xd, 0x1c, 0x1d, 0x1e, 0x1f, 0x20, 0x85, 0xa0,
    0x1680, 0x2000, 0x2001, 0x2002, 0x2003, 0x2004, 0x2005, 0x2006, 0x2007,
    0x2008, 0x2009, 0x200a, 0x2028, 0x2029, 0x202f, 0x205f, 0x3000]

/-- Scalar values appearing in the project-data context (spec section 3: string,
boolean, or integer; None also flows in via dict.get defaults). -/
inductive Value : Type
| str (s : List Char)
| int (n : Int)
| bool (b : Bool)
| none
deriving DecidableEq

/-- ExpressionContext: a flat string-keyed mapping of scalars (spec section 3).
Modelled as an association list in dict insertion order. -/
abbrev Context : Type := List (List Char × Value)

/-- Text of an Int exactly as Python str() renders it (decimal, minus sign). -/
def intText (n : Int) : List Char := (toString n).data

/-- Python str(value) on a raw scalar: str(None) is the word None, str(True)
is True, str(False) is False, integers in decimal, strings unchanged. -/
def pyStr : Value → List Char
| Value.str s => s
| Value.int n => intText n
| Value.bool b => if b then ("True").data else ("False").data
| Value.none => []

/-- The per-key replacement text computed by the stage-1 loop of
process_template (lines 57-64): None becomes the empty string, booleans become
the words true or false, then str() of the result. -/
def substText : Value → List Char
| Value.str s => s
| Value.int n => intText n
| Value.bool b => if b then ("true").data else ("false").data
| Value.none => []

/-- Python truthiness of a raw scalar, bool(value): used by the fixed composite
patterns (template_engine.py line 135). -/
def pyTruthy : Value → Bool
| Value.str s => s ≠ []
| Value.int n => n ≠ 0
| Value.bool b => b
| Value.none => false

/-- The condition rule of _process_conditionals (lines 93-97 and 109-111):
a missing variable is False; a string is truthy only when its lowercase form is
one of true, 1, yes, on; other scalars coerce with bool(). -/
def condTruthy (d : Context) (var : List Char) : Bool :=
  match lookupL d var with
  | Option.none => false
  | some (Value.str s) =>
      s.map Char.toLower ∈ [("true").data, ("1").data, ("yes").data, ("on").data]
  | some (Value.int n) => n ≠ 0
  | some (Value.bool b) => b
  | some Value.none => false

/-- Python equality of a scalar against a string literal (used by the
project_type test at line 163: an == between a non-str value and a str is
False). -/
def pyEqStr (v : Value) (s : List Char) : Bool :=
  match v with
  | Value.str t => t = s
  | _ => false

/-! ## A model of the Python re constructs used by the source

The patterns in template_engine.py use only: literal characters, character
classes, greedy star and plus over a class, lazy star over a class, and
capture groups around class expressions.  Backtracking preference order is
modelled in continuation-passing style: greedy quantifiers try the longest
extension first, lazy ones the shortest, exactly as the re engine does. -/

inductive Rx : Type
| eps
| chr (c : Char)
| cls (p : Char → Bool)
| starG (p : Char → Bool)
| plusG (p : Char → Bool)
| starL (p : Char → Bool)
| seq (a b : Rx)
| grp (n : Nat) (r : Rx)

/-- Capture environment: group number to captured text. -/
abbrev Caps : Type := List (Nat × List Char)

def capSet (caps : Caps) (n : Nat) (t : List Char) : Caps := (n, t) :: caps

def capGet (caps : Caps) (n : Nat) : List Char :=
  match caps with
  | [] => []
  | (m, t) :: rest => if m = n then t else capGet rest n

/-- Continuation type of the matcher: remaining input and captures to final
result (remaining input after the whole match, final captures). -/
abbrev K : Type := List Char → Caps → Option (List Char × Caps)

/-- Greedy class star: consume as many p-characters as possible, backtracking
to shorter extents only if the continuation fails. -/
def starGm (p : Char → Bool) : List Char → Caps → K → Option (List Char × Caps)
| [], caps, k => k [] caps
| c :: rest, caps, k =>
    if p c then
      match starGm p rest caps k with
      | some r => some r
      | Option.none => k (c :: rest) caps
    else k (c :: rest) caps

/-- Lazy class star: try the continuation first, consume a p-character only on
failure. -/
def starLm (p : Char → Bool) : List Char → Caps → K → Option (List Char × Caps)
| [], caps, k => k [] caps
| c :: rest, caps, k =>
    match k (c :: rest) caps with
    | some r => some r
    | Option.none => if p c then starLm p rest caps k else Option.none

/-- The backtracking matcher.  matchRx r s caps k attempts to match r at the
start of s and passes the rest of the input to k; alternatives are tried in
the preference order of the Python re engine. -/
def matchRx : Rx → List Char → Caps → K → Option (List Char × Caps)
| Rx.eps, s, caps, k => k s caps
| Rx.chr c, s, caps, k =>
    match s with
    | [] => Option.none
    | x :: rest => if x = c then k rest caps else Option.none
| Rx.cls p, s, caps, k =>
    match s with
    | [] => Option.none
    | x :: rest => if p x then k rest caps else Option.none
| Rx.starG p, s, caps, k => starGm p s caps k
| Rx.plusG p, s, caps, k =>
    match s with
    | [] => Option.none
    | x :: rest => if p x then starGm p rest caps k else Option.none
| Rx.starL p, s, caps, k => starLm p s caps k
| Rx.seq a b, s, caps, k => matchRx a s caps (fun s2 caps2 => matchRx b s2 caps2 k)
| Rx.grp n r, s, caps, k =>
    matchRx r s caps
      (fun s2 caps2 => k s2 (capSet caps2 n (s.take (s.length - s2.length))))

/-- Attempt a match at the current position; on success return the remaining
input after the match together with the captures. -/
def rxMatchAt (r : Rx) (s : List Char) : Option (List Char × Caps) :=
  matchRx r s [] (fun s2 caps => some (s2, caps))

/-- Literal text as a pattern. -/
def lit : List Char → Rx
| [] => Rx.eps
| c :: rest => Rx.seq (Rx.chr c) (lit rest)

/-- Sequence of patterns. -/
def rseq : List Rx → Rx
| [] => Rx.eps
| r :: rest => Rx.seq r (rseq rest)

/-! ## re.sub and re.findall drivers

re.sub scans left to right: at each position it attempts a match; on success
the match is replaced and scanning resumes after it, otherwise the character
is kept and scanning advances by one.  Every pattern in this development
begins with a literal brace and therefore never matches the empty string, so
a fuel of the input length bounds the scan. -/

def subGo (r : Rx) (repl : Caps → List Char) : Nat → List Char → List Char
| _, [] => []
| 0, s => s
| fuel + 1, c :: rest =>
    match rxMatchAt r (c :: rest) with
    | some (rem, caps) => repl caps ++ subGo r repl fuel rem
    | Option.none => c :: subGo r repl fuel rest

/-- re.sub with a function replacement (never raises). -/
def pySubF (r : Rx) (repl : Caps → List Char) (s : List Char) : List Char :=
  subGo r repl s.length s

/-- Errors raised by re.sub when the replacement string is an invalid
replacement template (re module documentation: unknown escapes of ASCII
letters in repl are errors; group references are resolved against the
pattern when sub is invoked). -/
inductive PyErr : Type
| badEscape
| invalidGroupRef
| groupRef
deriving DecidableEq

def isOctalDigit (c : Char) : Bool := decide ('0' ≤ c) && decide (c ≤ '7')

/-- Parse a Python re replacement template against a pattern with no capture
groups, as the re module does when sub is invoked: double backslash and the
seven character escapes expand; an octal escape backslash-0 takes up to two
further octal digits; a backslash before a nonzero digit is an invalid group
reference (the patterns substituted with string replacements here have no
groups); a backslash before any other ASCII letter is a bad escape; a
backslash before g starts a group reference, which we reject uniformly (the
only form valid against a groupless pattern, a reference to group 0, does not
occur in this development); any other escaped character is kept literally. -/
def checkRepl : List Char → Except PyErr (List Char)
| [] => Except.ok []
| ['\\'] => Except.error PyErr.badEscape
| '\\' :: '0' :: d1 :: d2 :: rest3 =>
    if isOctalDigit d1 && isOctalDigit d2 then
      (checkRepl rest3).map
        (fun t => Char.ofNat ((d1.toNat - 48) * 8 + (d2.toNat - 48)) :: t)
    else if isOctalDigit d1 then
      (checkRepl (d2 :: rest3)).map (fun t => Char.ofNat (d1.toNat - 48) :: t)
    else (checkRepl (d1 :: d2 :: rest3)).map (fun t => '\x00' :: t)
| '\\' :: '0' :: [d1] =>
    if isOctalDigit d1 then Except.ok [Char.ofNat (d1.toNat - 48)]
    else (checkRepl [d1]).map (fun t => '\x00' :: t)
| '\\' :: ['0'] => Except.ok ['\x00']
| '\\' :: c :: rest2 =>
    if c = '\\' then (checkRepl rest2).map (fun t => '\\' :: t)
    else if c = 'a' then (checkRepl rest2).map (fun t => '\x07' :: t)
    else if c = 'b' then (checkRepl rest2).map (fun t => '\x08' :: t)
    else if c = 'f' then (checkRepl rest2).map (fun t => '\x0c' :: t)
    else if c = 'n' then (checkRepl rest2).map (fun t => '\x0a' :: t)
    else if c = 'r' then (checkRepl rest2).map (fun t => '\x0d' :: t)
    else if c = 't' then (checkRepl rest2).map (fun t => '\x09' :: t)
    else if c = 'v' then (checkRepl rest2).map (fun t => '\x0b' :: t)
    else if c.isDigit then Except.error PyErr.invalidGroupRef
    else if c = 'g' then Except.error PyErr.groupRef
    else if c.isAlpha then Except.error PyErr.badEscape
    else (checkRepl rest2).map (fun t => '\\' :: c :: t)
| c :: rest => (checkRepl rest).map (fun t => c :: t)

/-- re.sub with a string replacement.  The replacement template is only
parsed when it contains a backslash (a backslash-free replacement is used
literally); parsing happens when sub is invoked, before scanning, so an
invalid template raises even if the pattern never matches. -/
def pySubStr (r : Rx) (repl : List Char) (s : List Char) : Except PyErr (List Char) :=
  if '\\' ∈ repl then
    match checkRepl repl with
    | Except.error e => Except.error e
    | Except.ok t => Except.ok (pySubF r (fun _ => t) s)
  else Except.ok (pySubF r (fun _ => repl) s)

/-- re.findall for a pattern with exactly one capture group: leftmost
non-overlapping matches, collecting group 1 of each. -/
def findallGo (r : Rx) : Nat → List Char → List (List Char)
| _, [] => []
| 0, _ => []
| fuel + 1, c :: rest =>
    match rxMatchAt r (c :: rest) with
    | some (rem, caps) => capGet caps 1 :: findallGo r fuel rem
    | Option.none => findallGo r fuel rest

def pyFindall1 (r : Rx) (s : List Char) : List (List Char) :=
  findallGo r s.length s

/-! ## The residual-cleanup substitution (template_engine.py line 70)

The final stage of process_template performs
re.sub of the pattern open-brace open-brace, backslash-s star,
one-or-more non-close-brace characters, backslash-s star, close-brace
close-brace, with the empty replacement.  Every whitespace character is a
non-close-brace character, so the interior matches exactly the nonempty
close-brace-free strings, and greedy matching accepts at a position exactly
when two open braces are followed by at least one non-close-brace character
and the first close brace after them is immediately followed by a second
one.  cleanupGo is that scan, specialised to the empty replacement. -/

/-- ASCII word character, the backslash-w class restricted to ASCII (every
input these patterns are applied to in the theorems below is ASCII). -/
def isPyWord (c : Char) : Bool := c.isAlphanum || c = '_'

def notQuote (c : Char) : Bool := c != '"'

def notCloseBrace (c : Char) : Bool := c != '}'

def cleanupGo : Nat → List Char → List Char
| _, [] => []
| 0, s => s
| fuel + 1, c :: rest =>
    if c = '{' ∧ rest.head? = some '{' then
      let body := rest.tail.takeWhile (fun x => x != '}')
      let r := rest.tail.dropWhile (fun x => x != '}')
      if body = [] then '{' :: cleanupGo fuel rest
      else if r.take 2 = ['}', '}'] then cleanupGo fuel (r.drop 2)
      else '{' :: cleanupGo fuel rest
    else c :: cleanupGo fuel rest

def cleanup (s : List Char) : List Char := cleanupGo s.length s

/-! ## The no-leftover-placeholder property (spec section 8)

A delimiter pair is an occurrence of two open braces followed eventually by
two close braces with no delimiter occurrence in between.  delimSeekGo scans
for a closing delimiter after an opening one, restarting at any new opening
delimiter it meets first. -/

def delimSeekGo : Nat → List Char → Bool
| _, [] => false
| 0, _ => false
| fuel + 1, c :: rest =>
    if c = '}' ∧ rest.head? = some '}' then true
    else if c = '{' ∧ rest.head? = some '{' then delimSeekGo fuel rest.tail
    else delimSeekGo fuel rest

def hasDelimPairGo : Nat → List Char → Bool
| _, [] => false
| 0, _ => false
| fuel + 1, c :: rest =>
    if c = '{' ∧ rest.head? = some '{' then delimSeekGo fuel rest.tail
    else hasDelimPairGo fuel rest

/-- Whether the text contains an open delimiter followed eventually by a
close delimiter with no intervening delimiter. -/
def hasDelimPair (s : List Char) : Bool := hasDelimPairGo s.length s

/-- Well-formed template text: a concatenation of non-brace characters and
placeholders consisting of two open braces, a nonempty brace-free body and
two close braces. -/
inductive WF : List Char → Prop
| nil : WF []
| char {c : Char} {rest : List Char} :
    c ≠ '{' → c ≠ '}' → WF rest → WF (c :: rest)
| tok {body rest : List Char} :
    body ≠ [] → (∀ c ∈ body, c ≠ '{' ∧ c ≠ '}') → WF rest →
    WF ('{' :: '{' :: (body ++ '}' :: '}' :: rest))

/-! ## The template validator (validate_template, lines 201-236)

The source takes a path and first reports a missing or unreadable file; the
content checks modelled here are the brace count and the invalid-variable
scan.  Error strings are modelled injectively by an inductive type. -/

inductive Issue : Type
| unmatchedBraces (opening closing : Nat)
| invalidVar (v : List Char)
deriving DecidableEq

/-- Does the second list occur as a prefix of the first. -/
def listStarts : List Char → List Char → Bool
| _, [] => true
| [], _ :: _ => false
| c :: cs, p :: ps => c = p && listStarts cs ps

/-- Python substring membership, needle in haystack. -/
def containsSub : List Char → List Char → Bool
| s, pat =>
    match s with
    | [] => pat.isEmpty
    | c :: rest => listStarts (c :: rest) pat || containsSub rest pat

/-- Python str.count: non-overlapping occurrences, scanning from the left. -/
def countSubGo (pat : List Char) : Nat → List Char → Nat
| _, [] => 0
| 0, _ => 0
| fuel + 1, c :: rest =>
    if listStarts (c :: rest) pat then
      1 + countSubGo pat fuel ((c :: rest).drop pat.length)
    else countSubGo pat fuel rest

def countSub (s pat : List Char) : Nat := countSubGo pat s.length s

/-- The character class a-z A-Z 0-9 underscore backslash-s pipe double-quote
single-quote plus minus of the invalid-variable pattern (line 231). -/
def allowedChar (c : Char) : Bool :=
  c.isAlphanum || c = '_' || isPyWs c || c = '|' || c = '"' || c = '\'' || c = '+' || c = '-'

def badChar (c : Char) : Bool := ! allowedChar c

/-- The invalid-variable pattern of line 231: two open braces, backslash-s
star, a group of non-close-brace star, one-or-more characters outside the
allowed class, non-close-brace star, then backslash-s star and two close
braces. -/
def invVarRx : Rx :=
  rseq [Rx.chr '{', Rx.chr '{', Rx.starG isPyWs,
    Rx.grp 1 (rseq [Rx.starG notCloseBrace, Rx.plusG badChar, Rx.starG notCloseBrace]),
    Rx.starG isPyWs, Rx.chr '}', Rx.chr '}']

/-- The keyword exemption of line 233: the variable text is skipped when any
of the five keywords occurs in it as a substring. -/
def exemptVar (v : List Char) : Bool :=
  containsSub v ("if").data || containsSub v ("else").data ||
  containsSub v ("string").data || containsSub v ("+").data || containsSub v ("\"").data

/-- validate_template (lines 201-236) on the file content: collect the
unmatched-brace issue and the invalid-variable issues, in source order. -/
def validate_template (content : List Char) : Bool × List Issue :=
  let openB := countSub content ("\x7b\x7b").data
  let closeB := countSub content ("\x7d\x7d").data
  let issues1 := if openB ≠ closeB then [Issue.unmatchedBraces openB closeB] else []
  let vars := pyFindall1 invVarRx content
  let issues2 := vars.filterMap
    (fun v => if exemptVar v then Option.none else some (Issue.invalidVar v))
  ((issues1 ++ issues2).isEmpty, issues1 ++ issues2)

/-! ## The patterns of template_engine.py, transliterated node by node -/

/-- Stage-1 pattern for one context key (line 64): two open braces,
backslash-s star, the escaped key literally, backslash-s star, two close
braces. -/
def keyRx (k : List Char) : Rx :=
  rseq [Rx.chr '{', Rx.chr '{', Rx.starG isPyWs, lit k, Rx.starG isPyWs,
    Rx.chr '}', Rx.chr '}']

/-- conditional_pattern (line 86): quoted text, if, a word, else, quoted
text, inside braces. -/
def condRx : Rx :=
  rseq [Rx.chr '{', Rx.chr '{', Rx.starG isPyWs,
    Rx.chr '"', Rx.grp 1 (Rx.starL notQuote), Rx.chr '"',
    Rx.plusG isPyWs, lit ("if").data, Rx.plusG isPyWs,
    Rx.grp 2 (Rx.plusG isPyWord),
    Rx.plusG isPyWs, lit ("else").data, Rx.plusG isPyWs,
    Rx.chr '"', Rx.grp 3 (Rx.starL notQuote), Rx.chr '"',
    Rx.starG isPyWs, Rx.chr '}', Rx.chr '}']

/-- value_conditional_pattern (line 102): a word, if, a word, else, quoted
text, inside braces. -/
def valCondRx : Rx :=
  rseq [Rx.chr '{', Rx.chr '{', Rx.starG isPyWs,
    Rx.grp 1 (Rx.plusG isPyWord),
    Rx.plusG isPyWs, lit ("if").data, Rx.plusG isPyWs,
    Rx.grp 2 (Rx.plusG isPyWord),
    Rx.plusG isPyWs, lit ("else").data, Rx.plusG isPyWs,
    Rx.chr '"', Rx.grp 3 (Rx.starL notQuote), Rx.chr '"',
    Rx.starG isPyWs, Rx.chr '}', Rx.chr '}']

/-- Coverage threshold-or-optional pattern (line 138). -/
def covGeRx : Rx :=
  rseq [Rx.chr '{', Rx.chr '{', Rx.starG isPyWs,
    lit ("\">=\" + coverage_threshold|string + \"%\"").data,
    Rx.plusG isPyWs, lit ("if").data, Rx.plusG isPyWs,
    lit ("coverage_threshold").data,
    Rx.plusG isPyWs, lit ("else").data, Rx.plusG isPyWs,
    lit ("\"optional\"").data,
    Rx.starG isPyWs, Rx.chr '}', Rx.chr '}']

/-- Coverage threshold-or-80-percent pattern (line 145). -/
def covPctRx : Rx :=
  rseq [Rx.chr '{', Rx.chr '{', Rx.starG isPyWs,
    lit ("coverage_threshold|string + \"%\"").data,
    Rx.plusG isPyWs, lit ("if").data, Rx.plusG isPyWs,
    lit ("coverage_threshold").data,
    Rx.plusG isPyWs, lit ("else").data, Rx.plusG isPyWs,
    lit ("\"80%\"").data,
    Rx.starG isPyWs, Rx.chr '}', Rx.chr '}']

/-- Web-project flag pattern (line 164). -/
def isWebRx : Rx :=
  rseq [Rx.chr '{', Rx.chr '{', Rx.starG isPyWs,
    lit ("\"true\"").data,
    Rx.plusG isPyWs, lit ("if").data, Rx.plusG isPyWs,
    lit ("project_type").data,
    Rx.starG isPyWs, lit ("==").data, Rx.starG isPyWs,
    lit ("\"web\"").data,
    Rx.plusG isPyWs, lit ("else").data, Rx.plusG isPyWs,
    lit ("\"false\"").data,
    Rx.starG isPyWs, Rx.chr '}', Rx.chr '}']

/-- Performance target pattern (line 169). -/
def perfRx : Rx :=
  rseq [Rx.chr '{', Rx.chr '{', Rx.starG isPyWs,
    lit ("performance_target_ms").data,
    Rx.plusG isPyWs, lit ("if").data, Rx.plusG isPyWs,
    lit ("performance_target_ms").data,
    Rx.plusG isPyWs, lit ("else").data, Rx.plusG isPyWs,
    lit ("\"200\"").data,
    Rx.starG isPyWs, Rx.chr '}', Rx.chr '}']

/-! ## The template pipeline (process_template, lines 44-72) -/

/-- Replacement function of the string-literal conditional (lines 88-97). -/
def condRepl (d : Context) (caps : Caps) : List Char :=
  if condTruthy d (capGet caps 2) then capGet caps 1 else capGet caps 3

/-- Replacement function of the value-or-default conditional (lines 104-113):
str of data.get(value_var, empty string) when the condition holds, else the
quoted default text. -/
def valCondRepl (d : Context) (caps : Caps) : List Char :=
  if condTruthy d (capGet caps 2) then
    match lookupL d (capGet caps 1) with
    | some v => pyStr v
    | Option.none => []
  else capGet caps 3

/-- Stage 1 of process_template (lines 57-64): for every key of the context,
in dict order, substitute its placeholder with the converted value text. -/
def stage1 (d : Context) (content : List Char) : Except PyErr (List Char) :=
  match d with
  | [] => Except.ok content
  | (k, v) :: rest =>
      match pySubStr (keyRx k) (substText v) content with
      | Except.error e => Except.error e
      | Except.ok c2 => stage1 rest c2

/-- Run a list of substitutions in order, stopping at the first error. -/
def runSubs : List (Rx × List Char) → List Char → Except PyErr (List Char)
| [], c => Except.ok c
| (r, repl) :: rest, c =>
    match pySubStr r repl c with
    | Except.error e => Except.error e
    | Except.ok c2 => runSubs rest c2

/-- The data.get lookups of process_specific_patterns. -/
def covValue (d : Context) : Value :=
  match lookupL d ("coverage_threshold").data with
  | some v => v
  | Option.none => Value.none

def projectTypeValue (d : Context) : Value :=
  match lookupL d ("project_type").data with
  | some v => v
  | Option.none => Value.str ("unknown").data

def perfValue (d : Context) : Value :=
  match lookupL d ("performance_target_ms").data with
  | some v => v
  | Option.none => Value.int 200

/-- The substitutions performed by process_specific_patterns (lines 123-174),
in source order: the two coverage-threshold substitutions, branching on the
truthiness of the raw coverage value; the web-project flag; the performance
target. -/
def specificSubs (d : Context) : List (Rx × List Char) :=
  (if pyTruthy (covValue d) then
    [(covGeRx, (">=").data ++ pyStr (covValue d) ++ ("%").data),
     (covPctRx, pyStr (covValue d) ++ ("%").data)]
  else
    [(covGeRx, ("optional").data), (covPctRx, ("80%").data)])
  ++ [(isWebRx, if pyEqStr (projectTypeValue d) ("web").data
        then ("true").data else ("false").data),
      (perfRx, pyStr (perfValue d))]

/-- process_specific_patterns (lines 123-174). -/
def process_specific_patterns (d : Context) (content : List Char) :
    Except PyErr (List Char) :=
  runSubs (specificSubs d) content

/-- process_conditionals (lines 75-120): the two conditional substitutions
(function replacements, which never raise) followed by the specific
patterns. -/
def process_conditionals (d : Context) (content : List Char) :
    Except PyErr (List Char) :=
  process_specific_patterns d (pySubF valCondRx (valCondRepl d) (pySubF condRx (condRepl d) content))

/-- process_template (lines 44-72) on the template text: stage-1 literal
substitution, conditionals with the specific patterns, then residual
cleanup.  render_template_string (lines 177-198) writes the string to a
temporary file and calls process_template on it, so it denotes the same
function of the text. -/
def process_template (d : Context) (template : List Char) :
    Except PyErr (List Char) := do
  let c1 ← stage1 d template
  let c4 ← process_conditionals d c1
  Except.ok (cleanup c4)

/-! ## Lemmas about the residual cleanup -/

lemma takeWhile_app_stop (p : Char → Bool) (xs : List Char) (y : Char) (ys : List Char)
    (hx : ∀ c ∈ xs, p c = true) (hy : p y = false) :
    (xs ++ y :: ys).takeWhile p = xs := by
  induction xs with
  | nil => simp [List.takeWhile_cons, hy]
  | cons a as ih =>
      simp only [List.cons_append, List.takeWhile_cons, hx a (List.mem_cons_self a as),
        if_true]
      exact congrArg (a :: ·) (ih (fun c hc => hx c (List.mem_cons_of_mem a hc)))

lemma dropWhile_app_stop (p : Char → Bool) (xs : List Char) (y : Char) (ys : List Char)
    (hx : ∀ c ∈ xs, p c = true) (hy : p y = false) :
    (xs ++ y :: ys).dropWhile p = y :: ys := by
  induction xs with
  | nil => simp [List.dropWhile_cons, hy]
  | cons a as ih =>
      simp only [List.cons_append, List.dropWhile_cons, hx a (List.mem_cons_self a as),
        if_true]
      exact ih (fun c hc => hx c (List.mem_cons_of_mem a hc))

lemma cleanupGo_nil (fuel : Nat) : cleanupGo fuel [] = [] := by
  cases fuel <;> rfl

lemma cleanupGo_cons_ne (fuel : Nat) (c : Char) (rest : List Char)
    (h : ¬(c = '{' ∧ rest.head? = some '{')) :
    cleanupGo (fuel + 1) (c :: rest) = c :: cleanupGo fuel rest := by
  simp only [cleanupGo]
  rw [if_neg h]

lemma cleanupGo_tok (fuel : Nat) (body rest : List Char) (hb : body ≠ [])
    (hbody : ∀ c ∈ body, c ≠ '}') :
    cleanupGo (fuel + 1) ('{' :: '{' :: (body ++ '}' :: '}' :: rest)) = cleanupGo fuel rest := by
  have htw : (body ++ '}' :: '}' :: rest).takeWhile (fun x => x != '}') = body :=
    takeWhile_app_stop _ body '}' ('}' :: rest)
      (fun c hc => by simpa using hbody c hc) (by simp)
  have hdw : (body ++ '}' :: '}' :: rest).dropWhile (fun x => x != '}') = '}' :: '}' :: rest :=
    dropWhile_app_stop _ body '}' ('}' :: rest)
      (fun c hc => by simpa using hbody c hc) (by simp)
  simp only [cleanupGo, List.head?_cons, List.tail_cons]
  rw [if_pos ⟨trivial, trivial⟩, htw, hdw, if_neg hb]
  simp

/-- On well-formed text the cleanup scan deletes every placeholder and keeps
every plain character, so its output has no braces at all. -/
lemma cleanupGo_wf_braceFree {l : List Char} (h : WF l) :
    ∀ fuel, l.length ≤ fuel → ∀ c ∈ cleanupGo fuel l, c ≠ '{' ∧ c ≠ '}' := by
  induction h with
  | nil =>
      intro fuel _ c hc
      rw [cleanupGo_nil] at hc
      cases hc
  | @char a rest h1 h2 _ ih =>
      intro fuel hlen c hc
      cases fuel with
      | zero => simp at hlen
      | succ fuel =>
          rw [cleanupGo_cons_ne fuel a rest (fun hcontra => h1 hcontra.1)] at hc
          rcases List.mem_cons.mp hc with rfl | hc2
          · exact ⟨h1, h2⟩
          · exact ih fuel (Nat.le_of_succ_le_succ (by simpa using hlen)) c hc2
  | @tok body rest hb hbody _ ih =>
      intro fuel hlen c hc
      cases fuel with
      | zero => simp at hlen
      | succ fuel =>
          rw [cleanupGo_tok fuel body rest hb (fun c hc => (hbody c hc).2)] at hc
          refine ih fuel ?_ c hc
          have : ('{' :: '{' :: (body ++ '}' :: '}' :: rest)).length
              = body.length + rest.length + 4 := by
            simp [List.length_append]
            omega
          omega

lemma hasDelimPairGo_noOpen (fuel : Nat) :
    ∀ l : List Char, (∀ c ∈ l, c ≠ '{') → hasDelimPairGo fuel l = false := by
  induction fuel with
  | zero => intro l _; cases l <;> rfl
  | succ fuel ih =>
      intro l hl
      cases l with
      | nil => rfl
      | cons c rest =>
          simp only [hasDelimPairGo]
          rw [if_neg (fun hcontra => hl c (List.mem_cons_self c rest) hcontra.1)]
          exact ih rest (fun x hx => hl x (List.mem_cons_of_mem c hx))

/-- C2 (counterexample): the claim that no rendered output contains an open
delimiter followed eventually by a close delimiter fails.  The empty
placeholder survives rendering unchanged, because the interior of the
cleanup pattern requires at least one non-close-brace character; and the
single cleanup pass can even splice a fresh placeholder together from
fragments around a removed match. -/
theorem c2_leftover_counterexample :
    process_template [] (("\x7b\x7b\x7d\x7d").data) = Except.ok (("\x7b\x7b\x7d\x7d").data)
    ∧ hasDelimPair (("\x7b\x7b\x7d\x7d").data) = true
    ∧ process_template [] (("\x7b\x7ba\x7d\x7b\x7bb\x7d\x7d\x7d").data)
        = Except.ok (("\x7b\x7ba\x7d\x7d").data)
    ∧ hasDelimPair (("\x7b\x7ba\x7d\x7d").data) = true := by
  exact ⟨by rfl, by rfl, by rfl, by rfl⟩

/-- C2 (amended): residual cleanup removes the leftmost non-overlapping
matches of the placeholder pattern in one pass.  On any intermediate text
that is well formed (a concatenation of non-brace characters and
placeholders with nonempty brace-free bodies) the output contains no brace
at all, hence no open delimiter followed eventually by a close delimiter;
on arbitrary text a delimiter pair can survive, as the counterexample
shows. -/
theorem c2_cleanup_wellFormed (l : List Char) (h : WF l) :
    (∀ c ∈ cleanup l, c ≠ '{' ∧ c ≠ '}') ∧ hasDelimPair (cleanup l) = false := by
  have hbf : ∀ c ∈ cleanup l, c ≠ '{' ∧ c ≠ '}' :=
    cleanupGo_wf_braceFree h l.length (Nat.le_refl _)
  exact ⟨hbf, hasDelimPairGo_noOpen _ _ (fun c hc => (hbf c hc).1)⟩

/-- C2 (witness): the amended theorem applied to the well-formed text
a, open, open, b, b, close, close, c. -/
theorem c2_cleanup_wellFormed_witness :
    (∀ c ∈ cleanup ('a' :: '{' :: '{' :: 'b' :: 'b' :: '}' :: '}' :: 'c' :: []),
        c ≠ '{' ∧ c ≠ '}')
    ∧ hasDelimPair (cleanup ('a' :: '{' :: '{' :: 'b' :: 'b' :: '}' :: '}' :: 'c' :: [])) = false :=
  c2_cleanup_wellFormed _
    (WF.char (by decide) (by decide)
      (@WF.tok ['b', 'b'] ['c'] (by decide) (by decide)
        (WF.char (by decide) (by decide) WF.nil)))

/-! ## Totality of rendering (claim C3) -/

lemma except_bind_ok {α β : Type} (a : α) (f : α → Except PyErr β) :
    (Except.ok a >>= f : Except PyErr β) = f a := rfl

lemma pySubStr_ok_of_noBackslash (r : Rx) (repl s : List Char) (h : '\\' ∉ repl) :
    pySubStr r repl s = Except.ok (pySubF r (fun _ => repl) s) := by
  unfold pySubStr
  rw [if_neg h]

lemma lookupL_mem {α : Type} {l : List (List Char × α)} {k : List Char} {v : α}
    (h : lookupL l k = some v) : (k, v) ∈ l := by
  induction l with
  | nil => cases h
  | cons p rest ih =>
      obtain ⟨k2, w⟩ := p
      by_cases hk : k2 = k
      · subst hk
        rw [lookupL, if_pos rfl] at h
        cases h
        exact List.mem_cons_self _ _
      · rw [lookupL, if_neg hk] at h
        exact List.mem_cons_of_mem _ (ih h)

lemma stage1_ok (d : Context) (content : List Char)
    (h : ∀ p ∈ d, '\\' ∉ substText p.2) :
    ∃ c, stage1 d content = Except.ok c := by
  induction d generalizing content with
  | nil => exact ⟨content, rfl⟩
  | cons p rest ih =>
      obtain ⟨k, v⟩ := p
      rw [stage1, pySubStr_ok_of_noBackslash _ _ _ (h (k, v) (List.mem_cons_self _ _))]
      exact ih _ (fun q hq => h q (List.mem_cons_of_mem _ hq))

lemma noBackslash_append {a b : List Char} (ha : '\\' ∉ a) (hb : '\\' ∉ b) :
    '\\' ∉ a ++ b := by
  intro h
  rcases List.mem_append.mp h with h2 | h2
  · exact ha h2
  · exact hb h2

lemma runSubs_ok (subs : List (Rx × List Char)) (content : List Char)
    (h : ∀ p ∈ subs, '\\' ∉ p.2) :
    ∃ c, runSubs subs content = Except.ok c := by
  induction subs generalizing content with
  | nil => exact ⟨content, rfl⟩
  | cons p rest ih =>
      obtain ⟨r, repl⟩ := p
      rw [runSubs, pySubStr_ok_of_noBackslash _ _ _ (h (r, repl) (List.mem_cons_self _ _))]
      exact ih _ (fun q hq => h q (List.mem_cons_of_mem _ hq))

lemma specific_ok (d : Context) (content : List Char)
    (h : ∀ p ∈ d, '\\' ∉ pyStr p.2) :
    ∃ c, process_specific_patterns d content = Except.ok c := by
  have hcov : '\\' ∉ pyStr (covValue d) := by
    rw [covValue]
    cases hv : lookupL d (("coverage_threshold").data) with
    | none => simp [pyStr]
    | some v => exact h _ (lookupL_mem hv)
  have hperf : '\\' ∉ pyStr (perfValue d) := by
    rw [perfValue]
    cases hv : lookupL d (("performance_target_ms").data) with
    | none => decide
    | some v => exact h _ (lookupL_mem hv)
  refine runSubs_ok _ content ?_
  intro p hp
  rw [specificSubs] at hp
  rcases List.mem_append.mp hp with hp2 | hp2
  · by_cases htr : pyTruthy (covValue d) = true
    · rw [if_pos htr] at hp2
      simp only [List.mem_cons, List.not_mem_nil, or_false] at hp2
      rcases hp2 with h1 | h1
      · rw [show p = (covGeRx, (">=").data ++ pyStr (covValue d) ++ ("%").data) from h1]
        exact noBackslash_append (noBackslash_append (by decide) hcov) (by decide)
      · rw [show p = (covPctRx, pyStr (covValue d) ++ ("%").data) from h1]
        exact noBackslash_append hcov (by decide)
    · rw [if_neg htr] at hp2
      simp only [List.mem_cons, List.not_mem_nil, or_false] at hp2
      rcases hp2 with h1 | h1
      · rw [show p = (covGeRx, ("optional").data) from h1]; decide
      · rw [show p = (covPctRx, ("80%").data) from h1]; decide
  · simp only [List.mem_cons, List.not_mem_nil, or_false] at hp2
    rcases hp2 with h1 | h1
    · rw [show p = (isWebRx, if pyEqStr (projectTypeValue d) ("web").data
          then ("true").data else ("false").data) from h1]
      by_cases hweb : pyEqStr (projectTypeValue d) ("web").data = true
      · rw [if_pos hweb]; decide
      · rw [if_neg hweb]; decide
    · rw [show p = (perfRx, pyStr (perfValue d)) from h1]
      exact hperf

/-- C3 (counterexample): rendering can raise.  A context value whose text
contains a backslash followed by an ASCII letter outside the recognized
replacement escapes makes re.sub reject the replacement template (re module
documentation: unknown escapes of ASCII letters in repl are errors), so
process_template propagates the exception.  The template here contains a
matching placeholder, so the error arises regardless of whether the
replacement template is parsed before or during scanning. -/
theorem c3_raises_counterexample :
    process_template [(("k").data, Value.str (("\\q").data))] (("\x7b\x7b k \x7d\x7d").data)
      = Except.error PyErr.badEscape := by rfl

/-- C3 (amended): rendering never fails provided the text form of every
context value is free of backslashes, and then unresolvable references
degrade to the empty string via residual cleanup rather than raising; a
value text with an invalid replacement escape makes rendering raise, as the
counterexample shows. -/
theorem c3_render_total (d : Context) (t : List Char)
    (h : ∀ p ∈ d, '\\' ∉ pyStr p.2 ∧ '\\' ∉ substText p.2) :
    ∃ s, process_template d t = Except.ok s := by
  obtain ⟨c1, hc1⟩ := stage1_ok d t (fun p hp => (h p hp).2)
  obtain ⟨c4, hc4⟩ := specific_ok d
    (pySubF valCondRx (valCondRepl d) (pySubF condRx (condRepl d) c1))
    (fun p hp => (h p hp).1)
  refine ⟨cleanup c4, ?_⟩
  rw [process_template, hc1, except_bind_ok, process_conditionals, hc4, except_bind_ok]

/-- C3 (witness): the amended theorem applied to a one-key context and a
template with one resolvable and one unresolvable placeholder. -/
theorem c3_render_total_witness :
    ∃ s, process_template [(("project_name").data, Value.str (("demo").data))]
      (("Hello \x7b\x7b project_name \x7d\x7d \x7b\x7b missing \x7d\x7d!").data)
      = Except.ok s :=
  c3_render_total _ _ (by decide)

/-- C6: the threshold-or-optional composite pattern.  With the context
mapping coverage_threshold to 85 the template renders with the threshold
interpolated, and with the empty context it renders the literal optional. -/
theorem c6_coverage_scenario :
    process_template [(("coverage_threshold").data, Value.int 85)]
      (("Coverage: \x7b\x7b \">=\" + coverage_threshold|string + \"%\" if coverage_threshold else \"optional\" \x7d\x7d").data)
      = Except.ok (("Coverage: >=85%").data)
    ∧ process_template []
      (("Coverage: \x7b\x7b \">=\" + coverage_threshold|string + \"%\" if coverage_threshold else \"optional\" \x7d\x7d").data)
      = Except.ok (("Coverage: optional").data) :=
  ⟨by rfl, by rfl⟩

/-! ## No-match and identity lemmas for the substitution drivers -/

/-- Whether a pattern fails to match at every position of the text. -/
def rxNoMatch (r : Rx) : List Char → Bool
| [] => true
| c :: rest => (rxMatchAt r (c :: rest)).isNone && rxNoMatch r rest

lemma subGo_zero (r : Rx) (repl : Caps → List Char) (s : List Char) :
    subGo r repl 0 s = s := by
  cases s <;> rfl

lemma subGo_cons_none (r : Rx) (repl : Caps → List Char) (fuel : Nat) (c : Char)
    (rest : List Char) (hm : rxMatchAt r (c :: rest) = Option.none) :
    subGo r repl (fuel + 1) (c :: rest) = c :: subGo r repl fuel rest := by
  simp only [subGo]
  rw [hm]

lemma subGo_cons_some (r : Rx) (repl : Caps → List Char) (fuel : Nat) (c : Char)
    (rest rem : List Char) (caps : Caps)
    (hm : rxMatchAt r (c :: rest) = some (rem, caps)) :
    subGo r repl (fuel + 1) (c :: rest) = repl caps ++ subGo r repl fuel rem := by
  simp only [subGo]
  rw [hm]

/-- A substitution whose pattern matches nowhere leaves the text unchanged,
whatever the replacement. -/
lemma subGo_id (r : Rx) (repl : Caps → List Char) :
    ∀ (fuel : Nat) (s : List Char), rxNoMatch r s = true → subGo r repl fuel s = s := by
  intro fuel
  induction fuel with
  | zero => intro s _; exact subGo_zero r repl s
  | succ fuel ih =>
      intro s hs
      cases s with
      | nil => rfl
      | cons c rest =>
          rw [rxNoMatch, Bool.and_eq_true] at hs
          rw [subGo_cons_none r repl fuel c rest (Option.isNone_iff_eq_none.mp hs.1)]
          exact congrArg (c :: ·) (ih rest hs.2)

lemma pySubF_id (r : Rx) (repl : Caps → List Char) (s : List Char)
    (h : rxNoMatch r s = true) : pySubF r repl s = s :=
  subGo_id r repl s.length s h

lemma pySubStr_id (r : Rx) (repl s : List Char) (hb : '\\' ∉ repl)
    (h : rxNoMatch r s = true) : pySubStr r repl s = Except.ok s := by
  rw [pySubStr_ok_of_noBackslash r repl s hb, pySubF_id r _ s h]

/-- A pattern that begins with a literal open brace matches nowhere in a
text that has no open brace. -/
lemma rxNoMatch_openBrace (r : Rx) :
    ∀ s : List Char, (∀ c ∈ s, c ≠ '{') → rxNoMatch (Rx.seq (Rx.chr '{') r) s = true := by
  intro s
  induction s with
  | nil => intro _; rfl
  | cons c rest ih =>
      intro h
      rw [rxNoMatch, Bool.and_eq_true]
      constructor
      · have : rxMatchAt (Rx.seq (Rx.chr '{') r) (c :: rest) = Option.none := by
          rw [rxMatchAt, matchRx, matchRx]
          rw [if_neg (h c (List.mem_cons_self c rest))]
        rw [this]
        rfl
      · exact ih (fun x hx => h x (List.mem_cons_of_mem c hx))

/-- Residual cleanup leaves a text without open braces unchanged. -/
lemma cleanupGo_id_noOpen :
    ∀ (fuel : Nat) (s : List Char), (∀ c ∈ s, c ≠ '{') → cleanupGo fuel s = s := by
  intro fuel
  induction fuel with
  | zero => intro s _; cases s <;> rfl
  | succ fuel ih =>
      intro s hs
      cases s with
      | nil => rfl
      | cons c rest =>
          simp only [cleanupGo]
          rw [if_neg (fun hcontra => hs c (List.mem_cons_self c rest) hcontra.1)]
          exact congrArg (c :: ·) (ih rest (fun x hx => hs x (List.mem_cons_of_mem c hx)))

lemma cleanup_id_noOpen (s : List Char) (h : ∀ c ∈ s, c ≠ '{') : cleanup s = s :=
  cleanupGo_id_noOpen s.length s h

lemma subGo_empty (r : Rx) (repl : Caps → List Char) (fuel : Nat) :
    subGo r repl fuel [] = [] := by
  cases fuel <;> rfl

/-- A substitution whose pattern consumes the whole text in one match at
position zero returns just the replacement. -/
lemma pySubF_full (r : Rx) (repl : Caps → List Char) (s : List Char) (caps : Caps)
    (hne : s ≠ []) (hm : rxMatchAt r s = some ([], caps)) :
    pySubF r repl s = repl caps := by
  cases s with
  | nil => exact absurd rfl hne
  | cons c rest =>
      rw [pySubF, List.length_cons,
        subGo_cons_some r repl rest.length c rest [] caps hm, subGo_empty,
        List.append_nil]

lemma runSubs_id (subs : List (Rx × List Char)) (c : List Char)
    (h : ∀ p ∈ subs, '\\' ∉ p.2 ∧ rxNoMatch p.1 c = true) :
    runSubs subs c = Except.ok c := by
  induction subs with
  | nil => rfl
  | cons p rest ih =>
      obtain ⟨r, repl⟩ := p
      rw [runSubs, pySubStr_id r repl c (h (r, repl) (List.mem_cons_self _ _)).1
        (h (r, repl) (List.mem_cons_self _ _)).2]
      exact ih (fun q hq => h q (List.mem_cons_of_mem _ hq))

lemma lookupL_single_eq {α : Type} (k : List Char) (v : α) :
    lookupL [(k, v)] k = some v := by
  rw [lookupL, if_pos rfl]

lemma lookupL_single_ne {α : Type} (k1 k : List Char) (v : α) (h : k1 ≠ k) :
    lookupL [(k1, v)] k = Option.none := by
  rw [lookupL, if_neg h]
  rfl

/-- C7 (counterexample): the claim that the performance-target expression
renders to the text form of the context value whenever the key is present
fails for string values.  The condition rule treats a string as truthy only
when its lowercase form is true, 1, yes or on, so the value text 300 makes
the conditional take the default branch and render 200. -/
theorem c7_counterexample :
    process_template [((("performance_target_ms").data), Value.str (("300").data))]
      (("\x7b\x7b performance_target_ms if performance_target_ms else \"200\" \x7d\x7d").data)
      = Except.ok (("200").data)
    ∧ pyStr (Value.str (("300").data)) ≠ ("200").data :=
  ⟨by rfl, by decide⟩

/-- C7 (amended): on the performance-target template with the single-key
context carrying a scalar v whose text is brace-free and backslash-free, the
expression renders to str(v) exactly when v is truthy under the conditional
rule (a non-string coerces with bool, a string is truthy only when its
lowercase form is true, 1, yes or on), and renders the literal 200
otherwise; with the empty context it renders 200. -/
theorem c7_performance_target (v : Value)
    (hbrace : ∀ c ∈ pyStr v, c ≠ '{' ∧ c ≠ '}')
    (hrepl1 : '\\' ∉ pyStr v) (hrepl2 : '\\' ∉ substText v) :
    process_template [((("performance_target_ms").data), v)]
      (("\x7b\x7b performance_target_ms if performance_target_ms else \"200\" \x7d\x7d").data)
      = Except.ok
          (if condTruthy [((("performance_target_ms").data), v)] (("performance_target_ms").data)
            then pyStr v else ("200").data)
    ∧ process_template []
      (("\x7b\x7b performance_target_ms if performance_target_ms else \"200\" \x7d\x7d").data)
      = Except.ok (("200").data) := by
  refine ⟨?_, by rfl⟩
  have h1 : stage1 [((("performance_target_ms").data), v)]
      (("\x7b\x7b performance_target_ms if performance_target_ms else \"200\" \x7d\x7d").data)
      = Except.ok (("\x7b\x7b performance_target_ms if performance_target_ms else \"200\" \x7d\x7d").data) := by
    rw [stage1, pySubStr_id _ _ _ hrepl2 (by rfl)]
    rfl
  have hcond : pySubF condRx (condRepl [((("performance_target_ms").data), v)])
      (("\x7b\x7b performance_target_ms if performance_target_ms else \"200\" \x7d\x7d").data)
      = (("\x7b\x7b performance_target_ms if performance_target_ms else \"200\" \x7d\x7d").data) :=
    pySubF_id _ _ _ (by rfl)
  have hval : pySubF valCondRx (valCondRepl [((("performance_target_ms").data), v)])
      (("\x7b\x7b performance_target_ms if performance_target_ms else \"200\" \x7d\x7d").data)
      = valCondRepl [((("performance_target_ms").data), v)]
          [(3, ("200").data), (2, ("performance_target_ms").data),
           (1, ("performance_target_ms").data)] :=
    pySubF_full _ _ _ _ (by decide) (by rfl)
  have hrep : valCondRepl [((("performance_target_ms").data), v)]
      [(3, ("200").data), (2, ("performance_target_ms").data),
       (1, ("performance_target_ms").data)]
      = (if condTruthy [((("performance_target_ms").data), v)] (("performance_target_ms").data)
          then pyStr v else ("200").data) := by
    rw [valCondRepl]
    rw [show capGet [(3, ("200").data), (2, ("performance_target_ms").data),
      (1, ("performance_target_ms").data)] 2 = ("performance_target_ms").data from rfl]
    rw [show capGet [(3, ("200").data), (2, ("performance_target_ms").data),
      (1, ("performance_target_ms").data)] 1 = ("performance_target_ms").data from rfl]
    rw [show capGet [(3, ("200").data), (2, ("performance_target_ms").data),
      (1, ("performance_target_ms").data)] 3 = ("200").data from rfl]
    rw [lookupL_single_eq]
  have hsubs : specificSubs [((("performance_target_ms").data), v)]
      = [(covGeRx, ("optional").data), (covPctRx, ("80%").data),
         (isWebRx, ("false").data), (perfRx, pyStr v)] := by
    have hcov : covValue [((("performance_target_ms").data), v)] = Value.none := by
      rw [covValue, lookupL_single_ne _ _ _ (by decide)]
    have hpt : projectTypeValue [((("performance_target_ms").data), v)]
        = Value.str (("unknown").data) := by
      rw [projectTypeValue, lookupL_single_ne _ _ _ (by decide)]
    have hpf : perfValue [((("performance_target_ms").data), v)] = v := by
      rw [perfValue, lookupL_single_eq]
    rw [specificSubs, hcov, hpt, hpf]
    rfl
  have hspec : ∀ X : List Char, (∀ c ∈ X, c ≠ '{') →
      process_specific_patterns [((("performance_target_ms").data), v)] X = Except.ok X := by
    intro X hX
    rw [process_specific_patterns, hsubs]
    refine runSubs_id _ _ ?_
    intro p hp
    simp only [List.mem_cons, List.not_mem_nil, or_false] at hp
    rcases hp with rfl | rfl | rfl | rfl
    · exact ⟨by decide, rxNoMatch_openBrace _ X hX⟩
    · exact ⟨by decide, rxNoMatch_openBrace _ X hX⟩
    · exact ⟨by decide, rxNoMatch_openBrace _ X hX⟩
    · exact ⟨hrepl1, rxNoMatch_openBrace _ X hX⟩
  have hX : ∀ c ∈ (if condTruthy [((("performance_target_ms").data), v)]
      (("performance_target_ms").data) then pyStr v else ("200").data), c ≠ '{' := by
    by_cases hc : condTruthy [((("performance_target_ms").data), v)]
        (("performance_target_ms").data) = true
    · rw [if_pos hc]; exact fun c hcc => (hbrace c hcc).1
    · rw [if_neg hc]; decide
  rw [process_template, h1, except_bind_ok, process_conditionals, hcond, hval, hrep,
    hspec _ hX, except_bind_ok, cleanup_id_noOpen _ hX]

/-- C7 (witness): the amended theorem applied to the integer value 300,
where the condition is truthy and rendering yields the value text. -/
theorem c7_performance_target_witness :
    process_template [((("performance_target_ms").data), Value.int 300)]
      (("\x7b\x7b performance_target_ms if performance_target_ms else \"200\" \x7d\x7d").data)
      = Except.ok
          (if condTruthy [((("performance_target_ms").data), Value.int 300)]
              (("performance_target_ms").data)
            then pyStr (Value.int 300) else ("200").data)
    ∧ process_template []
      (("\x7b\x7b performance_target_ms if performance_target_ms else \"200\" \x7d\x7d").data)
      = Except.ok (("200").data) :=
  c7_performance_target (Value.int 300) (by decide) (by decide) (by decide)

/-! ## Soundness of the matcher for group-free patterns (claim C8)

Whenever a group-free pattern matches, the consumed prefix lies in the
language of the pattern and the continuation is invoked on the remainder
with unchanged captures. -/

/-- The language of a pattern. -/
def Lang : Rx → List Char → Prop
| Rx.eps, t => t = []
| Rx.chr c, t => t = [c]
| Rx.cls p, t => ∃ c, t = [c] ∧ p c = true
| Rx.starG p, t => ∀ c ∈ t, p c = true
| Rx.plusG p, t => t ≠ [] ∧ ∀ c ∈ t, p c = true
| Rx.starL p, t => ∀ c ∈ t, p c = true
| Rx.seq a b, t => ∃ t1 t2, t = t1 ++ t2 ∧ Lang a t1 ∧ Lang b t2
| Rx.grp _ r, t => Lang r t

/-- Patterns with no capture group. -/
def NoGrp : Rx → Prop
| Rx.seq a b => NoGrp a ∧ NoGrp b
| Rx.grp _ _ => False
| _ => True

lemma starGm_sound (p : Char → Bool) :
    ∀ (s : List Char) (caps : Caps) (k : K) (res : List Char × Caps),
      starGm p s caps k = some res →
      ∃ t u, s = t ++ u ∧ (∀ c ∈ t, p c = true) ∧ k u caps = some res := by
  intro s
  induction s with
  | nil =>
      intro caps k res h
      exact ⟨[], [], rfl, by simp, h⟩
  | cons c rest ih =>
      intro caps k res h
      rw [starGm] at h
      by_cases hp : p c = true
      · rw [if_pos hp] at h
        cases hm : starGm p rest caps k with
        | some res2 =>
            rw [hm] at h
            obtain ⟨t, u, he, hall, hk⟩ := ih caps k res2 hm
            refine ⟨c :: t, u, by simp [he], ?_, ?_⟩
            · intro x hx
              rcases List.mem_cons.mp hx with rfl | hx2
              · exact hp
              · exact hall x hx2
            · rw [hk]
              exact h
        | none =>
            rw [hm] at h
            exact ⟨[], c :: rest, rfl, by simp, h⟩
      · rw [if_neg hp] at h
        exact ⟨[], c :: rest, rfl, by simp, h⟩

lemma starLm_sound (p : Char → Bool) :
    ∀ (s : List Char) (caps : Caps) (k : K) (res : List Char × Caps),
      starLm p s caps k = some res →
      ∃ t u, s = t ++ u ∧ (∀ c ∈ t, p c = true) ∧ k u caps = some res := by
  intro s
  induction s with
  | nil =>
      intro caps k res h
      exact ⟨[], [], rfl, by simp, h⟩
  | cons c rest ih =>
      intro caps k res h
      rw [starLm] at h
      cases hm : k (c :: rest) caps with
      | some res2 =>
          rw [hm] at h
          refine ⟨[], c :: rest, rfl, by simp, ?_⟩
          rw [hm]
          exact h
      | none =>
          rw [hm] at h
          by_cases hp : p c = true
          · rw [if_pos hp] at h
            obtain ⟨t, u, he, hall, hk⟩ := ih caps k res h
            refine ⟨c :: t, u, by simp [he], ?_, hk⟩
            intro x hx
            rcases List.mem_cons.mp hx with rfl | hx2
            · exact hp
            · exact hall x hx2
          · rw [if_neg hp] at h
            cases h

lemma matchRx_sound_nogrp :
    ∀ (r : Rx), NoGrp r →
      ∀ (s : List Char) (caps : Caps) (k : K) (res : List Char × Caps),
        matchRx r s caps k = some res →
        ∃ t u, s = t ++ u ∧ Lang r t ∧ k u caps = some res := by
  intro r
  induction r with
  | eps =>
      intro _ s caps k res h
      exact ⟨[], s, rfl, rfl, h⟩
  | chr c =>
      intro _ s caps k res h
      cases s with
      | nil =>
          rw [show matchRx (Rx.chr c) [] caps k = Option.none from rfl] at h
          cases h
      | cons x rest =>
          rw [show matchRx (Rx.chr c) (x :: rest) caps k
            = (if x = c then k rest caps else Option.none) from rfl] at h
          by_cases hx : x = c
          · rw [if_pos hx] at h
            exact ⟨[x], rest, rfl, by rw [hx]; rfl, h⟩
          · rw [if_neg hx] at h
            cases h
  | cls p =>
      intro _ s caps k res h
      cases s with
      | nil =>
          rw [show matchRx (Rx.cls p) [] caps k = Option.none from rfl] at h
          cases h
      | cons x rest =>
          rw [show matchRx (Rx.cls p) (x :: rest) caps k
            = (if p x = true then k rest caps else Option.none) from rfl] at h
          by_cases hx : p x = true
          · rw [if_pos hx] at h
            exact ⟨[x], rest, rfl, ⟨x, rfl, hx⟩, h⟩
          · rw [if_neg hx] at h
            cases h
  | starG p =>
      intro _ s caps k res h
      rw [show matchRx (Rx.starG p) s caps k = starGm p s caps k from rfl] at h
      obtain ⟨t, u, he, hall, hk⟩ := starGm_sound p s caps k res h
      exact ⟨t, u, he, hall, hk⟩
  | plusG p =>
      intro _ s caps k res h
      cases s with
      | nil =>
          rw [show matchRx (Rx.plusG p) [] caps k = Option.none from rfl] at h
          cases h
      | cons x rest =>
          rw [show matchRx (Rx.plusG p) (x :: rest) caps k
            = (if p x = true then starGm p rest caps k else Option.none) from rfl] at h
          by_cases hx : p x = true
          · rw [if_pos hx] at h
            obtain ⟨t, u, he, hall, hk⟩ := starGm_sound p rest caps k res h
            refine ⟨x :: t, u, by simp [he], ⟨by simp, ?_⟩, hk⟩
            intro y hy
            rcases List.mem_cons.mp hy with rfl | hy2
            · exact hx
            · exact hall y hy2
          · rw [if_neg hx] at h
            cases h
  | starL p =>
      intro _ s caps k res h
      rw [show matchRx (Rx.starL p) s caps k = starLm p s caps k from rfl] at h
      obtain ⟨t, u, he, hall, hk⟩ := starLm_sound p s caps k res h
      exact ⟨t, u, he, hall, hk⟩
  | seq a b iha ihb =>
      intro hng s caps k res h
      rw [show matchRx (Rx.seq a b) s caps k
        = matchRx a s caps (fun s2 caps2 => matchRx b s2 caps2 k) from rfl] at h
      obtain ⟨t1, u1, he1, hl1, hk1⟩ := iha hng.1 s caps _ res h
      obtain ⟨t2, u2, he2, hl2, hk2⟩ := ihb hng.2 u1 caps k res hk1
      refine ⟨t1 ++ t2, u2, ?_, ⟨t1, t2, rfl, hl1, hl2⟩, hk2⟩
      rw [he1, he2, List.append_assoc]
  | grp n r ih =>
      intro hng
      cases hng

/-- Whenever the invalid-variable pattern matches, the captured group 1
contains at least one character outside the allowed class. -/
lemma invVar_capture (s rem : List Char) (caps : Caps)
    (h : rxMatchAt invVarRx s = some (rem, caps)) :
    ∃ c ∈ capGet caps 1, badChar c = true := by
  rw [rxMatchAt] at h
  rw [show matchRx invVarRx s [] (fun s2 caps => some (s2, caps))
    = matchRx (Rx.chr '{') s []
        (fun s2 c2 => matchRx (rseq [Rx.chr '{', Rx.starG isPyWs,
          Rx.grp 1 (rseq [Rx.starG notCloseBrace, Rx.plusG badChar, Rx.starG notCloseBrace]),
          Rx.starG isPyWs, Rx.chr '}', Rx.chr '}']) s2 c2 (fun s3 caps => some (s3, caps)))
    from rfl] at h
  obtain ⟨t1, u1, _, _, h1⟩ := matchRx_sound_nogrp (Rx.chr '{') trivial s [] _ _ h
  rw [show matchRx (rseq [Rx.chr '{', Rx.starG isPyWs,
      Rx.grp 1 (rseq [Rx.starG notCloseBrace, Rx.plusG badChar, Rx.starG notCloseBrace]),
      Rx.starG isPyWs, Rx.chr '}', Rx.chr '}']) u1 [] (fun s3 caps => some (s3, caps))
    = matchRx (Rx.chr '{') u1 []
        (fun s2 c2 => matchRx (rseq [Rx.starG isPyWs,
          Rx.grp 1 (rseq [Rx.starG notCloseBrace, Rx.plusG badChar, Rx.starG notCloseBrace]),
          Rx.starG isPyWs, Rx.chr '}', Rx.chr '}']) s2 c2 (fun s3 caps => some (s3, caps)))
    from rfl] at h1
  obtain ⟨t2, u2, _, _, h2⟩ := matchRx_sound_nogrp (Rx.chr '{') trivial u1 [] _ _ h1
  rw [show matchRx (rseq [Rx.starG isPyWs,
      Rx.grp 1 (rseq [Rx.starG notCloseBrace, Rx.plusG badChar, Rx.starG notCloseBrace]),
      Rx.starG isPyWs, Rx.chr '}', Rx.chr '}']) u2 [] (fun s3 caps => some (s3, caps))
    = matchRx (Rx.starG isPyWs) u2 []
        (fun s2 c2 => matchRx (rseq [
          Rx.grp 1 (rseq [Rx.starG notCloseBrace, Rx.plusG badChar, Rx.starG notCloseBrace]),
          Rx.starG isPyWs, Rx.chr '}', Rx.chr '}']) s2 c2 (fun s3 caps => some (s3, caps)))
    from rfl] at h2
  obtain ⟨t3, u3, _, _, h3⟩ := matchRx_sound_nogrp (Rx.starG isPyWs) trivial u2 [] _ _ h2
  rw [show matchRx (rseq [
      Rx.grp 1 (rseq [Rx.starG notCloseBrace, Rx.plusG badChar, Rx.starG notCloseBrace]),
      Rx.starG isPyWs, Rx.chr '}', Rx.chr '}']) u3 [] (fun s3 caps => some (s3, caps))
    = matchRx (rseq [Rx.starG notCloseBrace, Rx.plusG badChar, Rx.starG notCloseBrace]) u3 []
        (fun s2 caps2 =>
          matchRx (rseq [Rx.starG isPyWs, Rx.chr '}', Rx.chr '}']) s2
            (capSet caps2 1 (u3.take (u3.length - s2.length)))
            (fun s3 caps => some (s3, caps)))
    from rfl] at h3
  obtain ⟨t4, u4, he4, hl4, h4⟩ := matchRx_sound_nogrp
    (rseq [Rx.starG notCloseBrace, Rx.plusG badChar, Rx.starG notCloseBrace])
    (by exact ⟨trivial, trivial, trivial, trivial⟩) u3 [] _ _ h3
  have htake : u3.take (u3.length - u4.length) = t4 := by
    rw [he4]
    have : (t4 ++ u4).length - u4.length = t4.length := by
      simp [List.length_append]
    rw [this]
    exact List.take_left t4 u4
  rw [htake] at h4
  obtain ⟨t5, u5, _, _, h5⟩ := matchRx_sound_nogrp
    (rseq [Rx.starG isPyWs, Rx.chr '}', Rx.chr '}'])
    (by exact ⟨trivial, trivial, trivial, trivial⟩) u4 (capSet [] 1 t4) _ _ h4
  have hcaps : caps = capSet [] 1 t4 := by
    cases h5
    rfl
  obtain ⟨a, bc, heq, _, b, cc, heq2, hb, hc⟩ := hl4
  obtain ⟨cpart, epart, heq3, hcp, _⟩ := hc
  have hbad : ∃ c ∈ t4, badChar c = true := by
    obtain ⟨hbne, hball⟩ := hb
    cases b with
    | nil => exact absurd rfl hbne
    | cons x xs =>
        refine ⟨x, ?_, hball x (List.mem_cons_self x xs)⟩
        rw [heq, heq2]
        exact List.mem_append_right a
          (List.mem_append_left cc (List.mem_cons_self x xs))
  rw [hcaps]
  have : capGet (capSet [] 1 t4) 1 = t4 := by
    rw [capSet, capGet, if_pos rfl]
  rw [this]
  exact hbad

/-- Every text collected by the invalid-variable findall contains a
character outside the allowed class. -/
lemma findall_invVar_bad :
    ∀ (fuel : Nat) (s : List Char) (v : List Char),
      v ∈ findallGo invVarRx fuel s → ∃ c ∈ v, badChar c = true := by
  intro fuel
  induction fuel with
  | zero =>
      intro s v hv
      cases s <;> simp [findallGo] at hv
  | succ fuel ih =>
      intro s v hv
      cases s with
      | nil => simp [findallGo] at hv
      | cons c rest =>
          rw [findallGo] at hv
          cases hm : rxMatchAt invVarRx (c :: rest) with
          | some res =>
              obtain ⟨rem, caps⟩ := res
              rw [hm] at hv
              rcases List.mem_cons.mp hv with rfl | hv2
              · exact invVar_capture (c :: rest) rem caps hm
              · exact ih rem v hv2
          | none =>
              rw [hm] at hv
              exact ih rest v hv

/-- C8: for every template, every body collected by the invalid-variable
scan contains a character outside the allowed class, and it is reported as
an invalid variable name exactly when it contains none of the
conditional-grammar keywords if, else, string, plus, double-quote. -/
theorem c8_validator_invalid_vars (content v : List Char)
    (hv : v ∈ pyFindall1 invVarRx content) :
    (∃ c ∈ v, badChar c = true)
    ∧ (exemptVar v = true → Issue.invalidVar v ∉ (validate_template content).2)
    ∧ (exemptVar v = false → Issue.invalidVar v ∈ (validate_template content).2) := by
  refine ⟨findall_invVar_bad content.length content v hv, ?_, ?_⟩
  · intro hex hmem
    simp only [validate_template] at hmem
    rcases List.mem_append.mp hmem with h1 | h2
    · by_cases hc : countSub content (("\x7b\x7b").data) ≠ countSub content (("\x7d\x7d").data)
      · rw [if_pos hc] at h1
        rcases List.mem_singleton.mp h1 with h3
        cases h3
      · rw [if_neg hc] at h1
        cases h1
    · obtain ⟨w, hw, hwe⟩ := List.mem_filterMap.mp h2
      by_cases hexw : exemptVar w = true
      · rw [if_pos hexw] at hwe
        cases hwe
      · rw [if_neg hexw] at hwe
        have : w = v := by
          have := Option.some.inj hwe
          exact Issue.invalidVar.inj this
        rw [this] at hexw
        exact hexw hex
  · intro hex
    simp only [validate_template]
    refine List.mem_append_right _ (List.mem_filterMap.mpr ⟨v, hv, ?_⟩)
    rw [if_neg (by rw [hex]; exact Bool.false_ne_true)]

/-- C8 (witness): the theorem applied to a template with one flagged
placeholder body containing a parenthesis. -/
theorem c8_validator_invalid_vars_witness :
    (∃ c ∈ ("a(b").data, badChar c = true)
    ∧ (exemptVar (("a(b").data) = true →
        Issue.invalidVar (("a(b").data) ∉ (validate_template (("\x7b\x7ba(b\x7d\x7d").data)).2)
    ∧ (exemptVar (("a(b").data) = false →
        Issue.invalidVar (("a(b").data) ∈ (validate_template (("\x7b\x7ba(b\x7d\x7d").data)).2) :=
  c8_validator_invalid_vars (("\x7b\x7ba(b\x7d\x7d").data) (("a(b").data) (by decide)

/-! ## The updater (src/quaestor/updater.py)

Filesystems and package resources are modelled as association lists from
path to content.  The command directory lives under the home directory; its
paths are tagged with a home prefix to keep them apart from project paths.
Package resources are addressed by package-qualified names, mirroring the
three importlib packages the source reads from.  State-changing operations
leave a ghost event trace used to state ordering properties. -/

/-- FileType (quaestor.core.project_metadata, imported by the updater; the
closed set of variants is given by spec section 3). -/
inductive FileType : Type
| system
| userEditable
| command
| other
deriving DecidableEq

/-- Modelled from the spec: a ManifestEntry (spec section 3) carries the
FileType, a version string, a modification baseline captured at the last
write (modelled as the written content itself) and the user-modified mark
consulted by the updater. -/
structure MEntry : Type where
  ftype : FileType
  version : List Char
  baseline : List Char
  userModified : Bool

/-- Modelled from the spec: the Manifest (spec section 3), a tool version
string and a mapping of relative path to entry. -/
structure Manifest : Type where
  quaestorVersion : Option (List Char)
  entries : List (List Char × MEntry)

/-- Ghost events recording the state-changing operations of a run. -/
inductive Ev : Type
| backup
| setVersion (v : List Char)
| writeFile (p : List Char)
| trackFile (p : List Char)
| saveManifest
deriving DecidableEq

/-- The world the updater acts on: the target filesystem (project files,
the home command directory and CLAUDE.md), the shipped package resources,
the in-memory manifest, the manifest as persisted on disk, and the event
trace. -/
structure Sys : Type where
  fs : List (List Char × List Char)
  resources : List (List Char × List Char)
  manifest : Manifest
  manifestDisk : Manifest
  events : List Ev

/-- The collaborators the updater imports but whose code is outside the two
source files: categorize_file (a pure function of the relative path),
COMMAND_FILES, extract_version_from_content, the two config markers and the
package version.  All are parameters of the model. -/
structure Env : Type where
  cat : List Char → FileType
  cmdFiles : List (List Char)
  extractVersion : List Char → Option (List Char)
  cfgStart : List Char
  cfgEnd : List Char
  toolVersion : List Char

/-- UpdateResult (updater.py lines 23-44): five append-only sequences. -/
structure UpdateResult : Type where
  updated : List (List Char)
  skipped : List (List Char)
  added : List (List Char)
  failed : List (List Char × List Char)
  backed_up : List (List Char)

def emptyResult : UpdateResult := ⟨[], [], [], [], []⟩

/-- Association-list update or insert. -/
def setL {α : Type} : List (List Char × α) → List Char → α → List (List Char × α)
| [], p, v => [(p, v)]
| (q, w) :: rest, p, v => if q = p then (p, v) :: rest else (q, w) :: setL rest p v

/-- Modelled from the spec: FileManifest.is_file_modified compares the
modification baseline of the tracked entry against the current content
fingerprint (spec glossary); an untracked or missing file is not reported
as modified. -/
def is_file_modified (m : Manifest) (fs : List (List Char × List Char))
    (p : List Char) : Bool :=
  match lookupL m.entries p, lookupL fs p with
  | some e, some c => decide (c ≠ e.baseline)
  | _, _ => false

/-- The user-modified mark of the tracked entry (consulted via
manifest.get_file_info(...).get(user_modified) in the check path). -/
def markedUserModified (m : Manifest) (p : List Char) : Bool :=
  match lookupL m.entries p with
  | some e => e.userModified
  | Option.none => false

/-- _should_update_file (updater.py lines 362-389): force wins; a missing
target is always written; system files always refresh; user-editable files
are never auto-updated once present; other types update unless the
manifest reports them modified. -/
def should_update_file (fs : List (List Char × List Char)) (m : Manifest)
    (p : List Char) (ft : FileType) (force : Bool) : Bool :=
  if force then true
  else if !(lookupL fs p).isSome then true
  else match ft with
    | FileType.system => true
    | FileType.userEditable => false
    | _ => !is_file_modified m fs p

/-- Modelled from the spec: FileManifest.track_file records an entry with
the extracted version (default 1.0) and a fresh modification baseline
(spec section 4.5). -/
def track_file (env : Env) (m : Manifest) (p : List Char) (ft : FileType)
    (content : List Char) : Manifest :=
  let version : List Char :=
    match env.extractVersion content with
    | some v => v
    | Option.none => ("1.0").data
  let e : MEntry := ⟨ft, version, content, false⟩
  { m with entries := setL m.entries p e }

/-- The four files of _update_quaestor_files (lines 260-265), as pairs of
package resource name and install-relative target path. -/
def qfiles : List (List Char × List Char) :=
  [(("QUAESTOR_CLAUDE.md").data, (".quaestor/QUAESTOR_CLAUDE.md").data),
   (("CRITICAL_RULES.md").data, (".quaestor/CRITICAL_RULES.md").data),
   (("templates/ARCHITECTURE.template.md").data, (".quaestor/ARCHITECTURE.md").data),
   (("templates/MEMORY.template.md").data, (".quaestor/MEMORY.md").data)]

/-- The package-qualified resource key of lines 273-276: names under
templates/ are read from quaestor.templates with the prefix stripped,
others from the quaestor package. -/
def resKey (resName : List Char) : List Char :=
  if listStarts resName ("templates/").data
  then ("quaestor.templates:").data ++ resName.drop 10
  else ("quaestor:").data ++ resName

/-- One iteration of the loop of _update_quaestor_files (lines 267-298):
read the shipped resource (a missing resource raises and is recorded as a
failure), decide, write and track when not a dry run, then classify as
updated or added by checking existence after any write. -/
def qfileStep (env : Env) (force dryRun : Bool)
    (acc : Sys × UpdateResult) (f : List Char × List Char) : Sys × UpdateResult :=
  let st := acc.1
  let res := acc.2
  let ft := env.cat f.2
  match lookupL st.resources (resKey f.1) with
  | Option.none => (st, { res with failed := res.failed ++ [(f.2, ("resource not found").data)] })
  | some content =>
      if should_update_file st.fs st.manifest f.2 ft force then
        if dryRun then
          if (lookupL st.fs f.2).isSome
          then (st, { res with updated := res.updated ++ [f.2] })
          else (st, { res with added := res.added ++ [f.2] })
        else
          let st2 := { st with fs := setL st.fs f.2 content,
                               manifest := track_file env st.manifest f.2 ft content,
                               events := st.events ++ [Ev.writeFile f.2, Ev.trackFile f.2] }
          if (lookupL st2.fs f.2).isSome
          then (st2, { res with updated := res.updated ++ [f.2] })
          else (st2, { res with added := res.added ++ [f.2] })
      else (st, { res with skipped := res.skipped ++ [f.2] })

def update_quaestor_files (env : Env) (force dryRun : Bool)
    (acc : Sys × UpdateResult) : Sys × UpdateResult :=
  qfiles.foldl (qfileStep env force dryRun) acc

/-- The home-directory target path of a command file. -/
def cmdTarget (cmd : List Char) : List Char := ("home/.claude/commands/").data ++ cmd

/-- The reporting name of a command file (f-string commands/name). -/
def cmdRel (cmd : List Char) : List Char := ("commands/").data ++ cmd

/-- One iteration of _update_command_files (lines 304-317): an existing
command file is never touched; otherwise a dry run reports an addition
without reading; a real run reads the shipped command (a missing resource
is recorded as a failure) and writes it. -/
def cmdStep (dryRun : Bool) (acc : Sys × UpdateResult) (cmd : List Char) :
    Sys × UpdateResult :=
  let st := acc.1
  let res := acc.2
  if (lookupL st.fs (cmdTarget cmd)).isSome then (st, res)
  else if dryRun then (st, { res with added := res.added ++ [cmdRel cmd] })
  else
    match lookupL st.resources (("quaestor.commands:").data ++ cmd) with
    | Option.none =>
        (st, { res with failed := res.failed ++ [(cmdRel cmd, ("resource not found").data)] })
    | some content =>
        ({ st with fs := setL st.fs (cmdTarget cmd) content,
                   events := st.events ++ [Ev.writeFile (cmdTarget cmd)] },
         { res with added := res.added ++ [cmdRel cmd] })

def update_command_files (env : Env) (dryRun : Bool)
    (acc : Sys × UpdateResult) : Sys × UpdateResult :=
  env.cmdFiles.foldl (cmdStep dryRun) acc

/-- Python str.find: index of the first occurrence, or minus one. -/
def findSubAux (pat : List Char) : List Char → Nat → Option Nat
| [], i => if listStarts [] pat then some i else Option.none
| c :: rest, i => if listStarts (c :: rest) pat then some i else findSubAux pat rest (i + 1)

def findSub (s pat : List Char) : Int :=
  match findSubAux pat s 0 with
  | some n => (n : Int)
  | Option.none => -1

/-- Python slice-index normalization: negative indices count from the end,
out-of-range indices clamp. -/
def pyIdx (len : Nat) (i : Int) : Nat :=
  if i < 0 then ((len : Int) + i).toNat else min i.toNat len

/-- Python s a colon b slicing. -/
def pySlice (s : List Char) (a b : Int) : List Char :=
  (s.take (pyIdx s.length b)).drop (pyIdx s.length a)

/-- _update_claude_md_include (lines 319-360): when CLAUDE.md exists and
contains the config start marker, extract the marker-delimited section of
the shipped include template and of the current file (str.find semantics,
including the minus-one plus marker-length arithmetic when a marker is
absent), and rewrite the section when they differ; a missing include
resource is recorded as a failure. -/
def update_claude_md_include (env : Env) (dryRun : Bool)
    (acc : Sys × UpdateResult) : Sys × UpdateResult :=
  let st := acc.1
  let res := acc.2
  match lookupL st.fs (("CLAUDE.md").data) with
  | Option.none => (st, res)
  | some cur =>
      if containsSub cur env.cfgStart then
        match lookupL st.resources (("quaestor.templates:CLAUDE_INCLUDE.md").data) with
        | Option.none =>
            (st,
             { res with failed := res.failed ++ [((("CLAUDE.md").data), ("resource not found").data)] })
        | some inc =>
            let newCfg := pySlice inc (findSub inc env.cfgStart)
              (findSub inc env.cfgEnd + (env.cfgEnd.length : Int))
            let curA := findSub cur env.cfgStart
            let curB := findSub cur env.cfgEnd + (env.cfgEnd.length : Int)
            let curCfg := pySlice cur curA curB
            if newCfg ≠ curCfg then
              if dryRun then
                (st, { res with updated := res.updated ++ [("CLAUDE.md (config section)").data] })
              else
                let newContent := pySlice cur 0 curA ++ newCfg ++ pySlice cur curB (cur.length : Int)
                let fs2 := setL st.fs (("CLAUDE.md").data) newContent
                let ev2 := st.events ++ [Ev.writeFile (("CLAUDE.md").data)]
                ({ st with fs := fs2, events := ev2 },
                 { res with updated := res.updated ++ [("CLAUDE.md (config section)").data] })
            else (st, res)
      else (st, res)

/-- The opening of QuaestorUpdater.update (lines 206-213): the optional
backup (modelled as a ghost event: the backup copies into a fresh
timestamped directory under .quaestor/.backup, which the spec scopes out)
and the recording of the tool version in the manifest; both are skipped on
a dry run. -/
def prepare (env : Env) (st0 : Sys) (backup dryRun : Bool) : Sys :=
  let st1 := if backup && !dryRun then { st0 with events := st0.events ++ [Ev.backup] } else st0
  if !dryRun then
    { st1 with manifest := { st1.manifest with quaestorVersion := some env.toolVersion },
               events := st1.events ++ [Ev.setVersion env.toolVersion] }
  else st1

/-- QuaestorUpdater.update (lines 187-224): backup and version recording,
the three file phases, and the manifest save (skipped on a dry run). -/
def update (env : Env) (st0 : Sys) (backup force dryRun : Bool) :
    Sys × UpdateResult :=
  let acc1 := update_quaestor_files env force dryRun (prepare env st0 backup dryRun, emptyResult)
  let acc2 := update_command_files env dryRun acc1
  let acc3 := update_claude_md_include env dryRun acc2
  let stF := if !dryRun then
      { acc3.1 with manifestDisk := acc3.1.manifest,
                    events := acc3.1.events ++ [Ev.saveManifest] }
    else acc3.1
  (stF, acc3.2)

/-! ## Frame lemmas for the updater -/

lemma lookupL_setL_self {α : Type} (l : List (List Char × α)) (p : List Char) (v : α) :
    lookupL (setL l p v) p = some v := by
  induction l with
  | nil => simp [setL, lookupL]
  | cons q rest ih =>
      obtain ⟨q1, w⟩ := q
      by_cases hq : q1 = p
      · rw [setL, if_pos hq, lookupL, if_pos rfl]
      · rw [setL, if_neg hq, lookupL, if_neg hq]
        exact ih

lemma lookupL_setL_ne {α : Type} (l : List (List Char × α)) (p q : List Char) (v : α)
    (h : q ≠ p) : lookupL (setL l p v) q = lookupL l q := by
  induction l with
  | nil =>
      rw [setL, lookupL, lookupL, if_neg (fun hc => h hc.symm)]
      rfl
  | cons r rest ih =>
      obtain ⟨r1, w⟩ := r
      by_cases hr : r1 = p
      · rw [setL, if_pos hr, lookupL, lookupL, if_neg (fun hc => h hc.symm), hr,
          if_neg (fun hc => h hc.symm)]
      · rw [setL, if_neg hr, lookupL, lookupL]
        by_cases hrq : r1 = q
        · rw [if_pos hrq, if_pos hrq]
        · rw [if_neg hrq, if_neg hrq]
          exact ih

/-- Events that file processing appends: writes and manifest tracking. -/
def FileEvs (T : List Ev) : Prop :=
  ∀ e ∈ T, ∃ p, e = Ev.writeFile p ∨ e = Ev.trackFile p

/-- What one processing phase may do to the world: resources and the
on-disk manifest are untouched, the manifest version is untouched, the
filesystem and the manifest entries change only at the given paths, and
only file events are appended. -/
def SFrame (st st2 : Sys) (ps : List (List Char)) : Prop :=
  st2.resources = st.resources
  ∧ st2.manifestDisk = st.manifestDisk
  ∧ st2.manifest.quaestorVersion = st.manifest.quaestorVersion
  ∧ (∀ p, p ∉ ps → lookupL st2.fs p = lookupL st.fs p)
  ∧ (∀ p, p ∉ ps → lookupL st2.manifest.entries p = lookupL st.manifest.entries p)
  ∧ (∃ T, st2.events = st.events ++ T ∧ FileEvs T)

lemma sframe_refl (st : Sys) (ps : List (List Char)) : SFrame st st ps :=
  ⟨rfl, rfl, rfl, fun _ _ => rfl, fun _ _ => rfl, [], by simp, fun e he => absurd he (List.not_mem_nil e)⟩

lemma sframe_mono (st st2 : Sys) (ps ps2 : List (List Char)) (hsub : ∀ p ∈ ps, p ∈ ps2)
    (h : SFrame st st2 ps) : SFrame st st2 ps2 := by
  obtain ⟨h1, h2, h3, h4, h5, h6⟩ := h
  exact ⟨h1, h2, h3,
    fun p hp => h4 p (fun hc => hp (hsub p hc)),
    fun p hp => h5 p (fun hc => hp (hsub p hc)), h6⟩

lemma sframe_trans (st st2 st3 : Sys) (ps ps2 : List (List Char))
    (h : SFrame st st2 ps) (h2 : SFrame st2 st3 ps2) : SFrame st st3 (ps ++ ps2) := by
  obtain ⟨a1, a2, a3, a4, a5, T1, hT1, hF1⟩ := h
  obtain ⟨b1, b2, b3, b4, b5, T2, hT2, hF2⟩ := h2
  refine ⟨b1.trans a1, b2.trans a2, b3.trans a3, ?_, ?_, T1 ++ T2, ?_, ?_⟩
  · intro p hp
    rw [b4 p (fun hc => hp (List.mem_append_right ps hc)),
      a4 p (fun hc => hp (List.mem_append_left ps2 hc))]
  · intro p hp
    rw [b5 p (fun hc => hp (List.mem_append_right ps hc)),
      a5 p (fun hc => hp (List.mem_append_left ps2 hc))]
  · rw [hT2, hT1, List.append_assoc]
  · intro e he
    rcases List.mem_append.mp he with h | h
    · exact hF1 e h
    · exact hF2 e h

/-- What one processing phase may do to the result: the five sequences are
append-only, and the appended names are among the given ones. -/
def RDelta (res res2 : UpdateResult) (names : List (List Char)) : Prop :=
  (∃ u, res2.updated = res.updated ++ u ∧ ∀ x ∈ u, x ∈ names)
  ∧ (∃ s, res2.skipped = res.skipped ++ s ∧ ∀ x ∈ s, x ∈ names)
  ∧ (∃ a, res2.added = res.added ++ a ∧ ∀ x ∈ a, x ∈ names)
  ∧ (∃ fl, res2.failed = res.failed ++ fl ∧ ∀ x ∈ fl, x.1 ∈ names)
  ∧ res2.backed_up = res.backed_up

lemma rdelta_refl (res : UpdateResult) (names : List (List Char)) : RDelta res res names :=
  ⟨⟨[], by simp, by simp⟩, ⟨[], by simp, by simp⟩, ⟨[], by simp, by simp⟩,
   ⟨[], by simp, by simp⟩, rfl⟩

lemma rdelta_mono (res res2 : UpdateResult) (names names2 : List (List Char))
    (hsub : ∀ p ∈ names, p ∈ names2) (h : RDelta res res2 names) : RDelta res res2 names2 := by
  obtain ⟨⟨u, hu, hu2⟩, ⟨s, hs, hs2⟩, ⟨a, ha, ha2⟩, ⟨fl, hf, hf2⟩, hb⟩ := h
  exact ⟨⟨u, hu, fun x hx => hsub x (hu2 x hx)⟩, ⟨s, hs, fun x hx => hsub x (hs2 x hx)⟩,
    ⟨a, ha, fun x hx => hsub x (ha2 x hx)⟩, ⟨fl, hf, fun x hx => hsub x.1 (hf2 x hx)⟩, hb⟩

lemma rdelta_trans (res res2 res3 : UpdateResult) (names names2 : List (List Char))
    (h : RDelta res res2 names) (h2 : RDelta res2 res3 names2) :
    RDelta res res3 (names ++ names2) := by
  obtain ⟨⟨u, hu, hu2⟩, ⟨s, hs, hs2⟩, ⟨a, ha, ha2⟩, ⟨fl, hf, hf2⟩, hb⟩ := h
  obtain ⟨⟨u2, hu3, hu4⟩, ⟨s2, hs3, hs4⟩, ⟨a2, ha3, ha4⟩, ⟨fl2, hf3, hf4⟩, hb2⟩ := h2
  refine ⟨⟨u ++ u2, ?_, ?_⟩, ⟨s ++ s2, ?_, ?_⟩, ⟨a ++ a2, ?_, ?_⟩, ⟨fl ++ fl2, ?_, ?_⟩, hb2.trans hb⟩
  · rw [hu3, hu, List.append_assoc]
  · intro x hx
    rcases List.mem_append.mp hx with h | h
    · exact List.mem_append_left _ (hu2 x h)
    · exact List.mem_append_right _ (hu4 x h)
  · rw [hs3, hs, List.append_assoc]
  · intro x hx
    rcases List.mem_append.mp hx with h | h
    · exact List.mem_append_left _ (hs2 x h)
    · exact List.mem_append_right _ (hs4 x h)
  · rw [ha3, ha, List.append_assoc]
  · intro x hx
    rcases List.mem_append.mp hx with h | h
    · exact List.mem_append_left _ (ha2 x h)
    · exact List.mem_append_right _ (ha4 x h)
  · rw [hf3, hf, List.append_assoc]
  · intro x hx
    rcases List.mem_append.mp hx with h | h
    · exact List.mem_append_left _ (hf2 x h)
    · exact List.mem_append_right _ (hf4 x h)

lemma fileEvs_nil : FileEvs [] := fun e he => absurd he (List.not_mem_nil e)

lemma sframe_write (st : Sys) (p : List Char) (content : List Char) (m2 : Manifest)
    (hver : m2.quaestorVersion = st.manifest.quaestorVersion)
    (hent : ∀ q, q ≠ p → lookupL m2.entries q = lookupL st.manifest.entries q)
    (T : List Ev) (hT : FileEvs T) :
    SFrame st { st with fs := setL st.fs p content, manifest := m2,
                        events := st.events ++ T } [p] := by
  refine ⟨rfl, rfl, hver, ?_, ?_, T, rfl, hT⟩
  · intro q hq
    exact lookupL_setL_ne st.fs p q content (fun hc => hq (by rw [hc]; exact List.mem_cons_self p []))
  · intro q hq
    exact hent q (fun hc => hq (by rw [hc]; exact List.mem_cons_self p []))

lemma rdelta_one_updated (res : UpdateResult) (x : List Char) (names : List (List Char))
    (hx : x ∈ names) : RDelta res { res with updated := res.updated ++ [x] } names :=
  ⟨⟨[x], rfl, by simpa using hx⟩, ⟨[], by simp, by simp⟩, ⟨[], by simp, by simp⟩,
   ⟨[], by simp, by simp⟩, rfl⟩

lemma rdelta_one_skipped (res : UpdateResult) (x : List Char) (names : List (List Char))
    (hx : x ∈ names) : RDelta res { res with skipped := res.skipped ++ [x] } names :=
  ⟨⟨[], by simp, by simp⟩, ⟨[x], rfl, by simpa using hx⟩, ⟨[], by simp, by simp⟩,
   ⟨[], by simp, by simp⟩, rfl⟩

lemma rdelta_one_added (res : UpdateResult) (x : List Char) (names : List (List Char))
    (hx : x ∈ names) : RDelta res { res with added := res.added ++ [x] } names :=
  ⟨⟨[], by simp, by simp⟩, ⟨[], by simp, by simp⟩, ⟨[x], rfl, by simpa using hx⟩,
   ⟨[], by simp, by simp⟩, rfl⟩

lemma rdelta_one_failed (res : UpdateResult) (x : List Char × List Char)
    (names : List (List Char)) (hx : x.1 ∈ names) :
    RDelta res { res with failed := res.failed ++ [x] } names :=
  ⟨⟨[], by simp, by simp⟩, ⟨[], by simp, by simp⟩, ⟨[], by simp, by simp⟩,
   ⟨[x], rfl, fun y hy => by rw [List.mem_singleton.mp hy]; exact hx⟩, rfl⟩

lemma track_file_version (env : Env) (m : Manifest) (p : List Char) (ft : FileType)
    (content : List Char) :
    (track_file env m p ft content).quaestorVersion = m.quaestorVersion := rfl

lemma track_file_entries_ne (env : Env) (m : Manifest) (p q : List Char) (ft : FileType)
    (content : List Char) (h : q ≠ p) :
    lookupL (track_file env m p ft content).entries q = lookupL m.entries q := by
  rw [track_file]
  exact lookupL_setL_ne m.entries p q _ h

lemma qfileStep_spec (env : Env) (force dryRun : Bool) (acc : Sys × UpdateResult)
    (f : List Char × List Char) :
    SFrame acc.1 (qfileStep env force dryRun acc f).1 [f.2]
    ∧ RDelta acc.2 (qfileStep env force dryRun acc f).2 [f.2] := by
  obtain ⟨st, res⟩ := acc
  simp only [qfileStep]
  split
  · exact ⟨sframe_refl st _,
      rdelta_one_failed res (f.2, ("resource not found").data) _ (List.mem_cons_self _ _)⟩
  · rename_i content hr
    split
    · split
      · split
        · exact ⟨sframe_refl st _, rdelta_one_updated res f.2 _ (List.mem_cons_self _ _)⟩
        · exact ⟨sframe_refl st _, rdelta_one_added res f.2 _ (List.mem_cons_self _ _)⟩
      · have hframe : SFrame st
            { st with
              fs := setL st.fs f.2 content,
              manifest := track_file env st.manifest f.2 (env.cat f.2) content,
              events := st.events ++ [Ev.writeFile f.2, Ev.trackFile f.2] } [f.2] := by
          refine sframe_write st f.2 content _ (track_file_version env _ _ _ _)
            (fun q hq => track_file_entries_ne env _ _ _ _ _ hq) _ ?_
          intro e he
          rcases List.mem_cons.mp he with rfl | he2
          · exact ⟨f.2, Or.inl rfl⟩
          · rcases List.mem_cons.mp he2 with rfl | he3
            · exact ⟨f.2, Or.inr rfl⟩
            · exact absurd he3 (List.not_mem_nil e)
        split
        · exact ⟨hframe, rdelta_one_updated res f.2 _ (List.mem_cons_self _ _)⟩
        · exact ⟨hframe, rdelta_one_added res f.2 _ (List.mem_cons_self _ _)⟩
    · exact ⟨sframe_refl st _, rdelta_one_skipped res f.2 _ (List.mem_cons_self _ _)⟩

lemma cmdStep_spec (dryRun : Bool) (acc : Sys × UpdateResult) (cmd : List Char) :
    SFrame acc.1 (cmdStep dryRun acc cmd).1 [cmdTarget cmd]
    ∧ RDelta acc.2 (cmdStep dryRun acc cmd).2 [cmdRel cmd] := by
  obtain ⟨st, res⟩ := acc
  simp only [cmdStep]
  split
  · exact ⟨sframe_refl st _, rdelta_refl res _⟩
  · split
    · exact ⟨sframe_refl st _, rdelta_one_added res (cmdRel cmd) _ (List.mem_cons_self _ _)⟩
    · split
      · exact ⟨sframe_refl st _,
          rdelta_one_failed res (cmdRel cmd, ("resource not found").data) _
            (List.mem_cons_self _ _)⟩
      · rename_i content hr
        refine ⟨⟨rfl, rfl, rfl, ?_, fun _ _ => rfl, [Ev.writeFile (cmdTarget cmd)], rfl, ?_⟩,
          rdelta_one_added res (cmdRel cmd) _ (List.mem_cons_self _ _)⟩
        · intro q hq
          exact lookupL_setL_ne st.fs (cmdTarget cmd) q content
            (fun hc => hq (by rw [hc]; exact List.mem_cons_self _ []))
        · intro e he2
          rcases List.mem_cons.mp he2 with rfl | he3
          · exact ⟨cmdTarget cmd, Or.inl rfl⟩
          · exact absurd he3 (List.not_mem_nil e)

lemma includeStep_spec (env : Env) (dryRun : Bool) (acc : Sys × UpdateResult) :
    SFrame acc.1 (update_claude_md_include env dryRun acc).1 [(("CLAUDE.md").data)]
    ∧ RDelta acc.2 (update_claude_md_include env dryRun acc).2
        [(("CLAUDE.md (config section)").data), (("CLAUDE.md").data)] := by
  obtain ⟨st, res⟩ := acc
  simp only [update_claude_md_include]
  split
  · exact ⟨sframe_refl st _, rdelta_refl res _⟩
  · rename_i cur hcl
    split
    · split
      · exact ⟨sframe_refl st _,
          rdelta_one_failed res ((("CLAUDE.md").data), ("resource not found").data) _
            (List.mem_cons_of_mem _ (List.mem_cons_self _ _))⟩
      · rename_i inc hr
        split
        · split
          · exact ⟨sframe_refl st _,
              rdelta_one_updated res (("CLAUDE.md (config section)").data) _
                (List.mem_cons_self _ _)⟩
          · refine ⟨⟨rfl, rfl, rfl, ?_, fun _ _ => rfl,
                [Ev.writeFile (("CLAUDE.md").data)], rfl, ?_⟩,
              rdelta_one_updated res (("CLAUDE.md (config section)").data) _
                (List.mem_cons_self _ _)⟩
            · intro q hq
              exact lookupL_setL_ne st.fs (("CLAUDE.md").data) q _
                (fun hc => hq (by rw [hc]; exact List.mem_cons_self _ []))
            · intro e he2
              rcases List.mem_cons.mp he2 with rfl | he3
              · exact ⟨(("CLAUDE.md").data), Or.inl rfl⟩
              · exact absurd he3 (List.not_mem_nil e)
        · exact ⟨sframe_refl st _, rdelta_refl res _⟩
    · exact ⟨sframe_refl st _, rdelta_refl res _⟩

/-! ## Fold-level and preparation-phase lemmas -/

lemma qfold_spec (env : Env) (force dryRun : Bool) :
    ∀ (l : List (List Char × List Char)) (acc : Sys × UpdateResult),
      SFrame acc.1 (l.foldl (qfileStep env force dryRun) acc).1 (l.map Prod.snd)
      ∧ RDelta acc.2 (l.foldl (qfileStep env force dryRun) acc).2 (l.map Prod.snd) := by
  intro l
  induction l with
  | nil => intro acc; exact ⟨sframe_refl _ _, rdelta_refl _ _⟩
  | cons f rest ih =>
      intro acc
      rw [List.foldl_cons]
      obtain ⟨hs1, hr1⟩ := qfileStep_spec env force dryRun acc f
      obtain ⟨hs2, hr2⟩ := ih (qfileStep env force dryRun acc f)
      constructor
      · have := sframe_trans _ _ _ _ _ hs1 hs2
        simpa using this
      · have := rdelta_trans _ _ _ _ _ hr1 hr2
        simpa using this

lemma cmdfold_spec (dryRun : Bool) :
    ∀ (l : List (List Char)) (acc : Sys × UpdateResult),
      SFrame acc.1 (l.foldl (cmdStep dryRun) acc).1 (l.map cmdTarget)
      ∧ RDelta acc.2 (l.foldl (cmdStep dryRun) acc).2 (l.map cmdRel) := by
  intro l
  induction l with
  | nil => intro acc; exact ⟨sframe_refl _ _, rdelta_refl _ _⟩
  | cons c rest ih =>
      intro acc
      rw [List.foldl_cons]
      obtain ⟨hs1, hr1⟩ := cmdStep_spec dryRun acc c
      obtain ⟨hs2, hr2⟩ := ih (cmdStep dryRun acc c)
      constructor
      · have := sframe_trans _ _ _ _ _ hs1 hs2
        simpa using this
      · have := rdelta_trans _ _ _ _ _ hr1 hr2
        simpa using this

lemma prepare_fs (env : Env) (st : Sys) (b d : Bool) : (prepare env st b d).fs = st.fs := by
  simp only [prepare]
  split <;> split <;> rfl

lemma prepare_resources (env : Env) (st : Sys) (b d : Bool) :
    (prepare env st b d).resources = st.resources := by
  simp only [prepare]
  split <;> split <;> rfl

lemma prepare_manifestDisk (env : Env) (st : Sys) (b d : Bool) :
    (prepare env st b d).manifestDisk = st.manifestDisk := by
  simp only [prepare]
  split <;> split <;> rfl

lemma prepare_entries (env : Env) (st : Sys) (b d : Bool) :
    (prepare env st b d).manifest.entries = st.manifest.entries := by
  simp only [prepare]
  split <;> split <;> rfl

lemma prepare_dry (env : Env) (st : Sys) (b : Bool) : prepare env st b true = st := by
  cases b <;> rfl

lemma prepare_version_nodry (env : Env) (st : Sys) (b : Bool) :
    (prepare env st b false).manifest.quaestorVersion = some env.toolVersion := by
  cases b <;> rfl

lemma prepare_events_nodry (env : Env) (st : Sys) (b : Bool) :
    (prepare env st b false).events
      = st.events ++ (if b then [Ev.backup] else []) ++ [Ev.setVersion env.toolVersion] := by
  cases b <;> simp [prepare]

lemma qfileStep_dry (env : Env) (force : Bool) (acc : Sys × UpdateResult)
    (f : List Char × List Char) : (qfileStep env force true acc f).1 = acc.1 := by
  obtain ⟨st, res⟩ := acc
  simp only [qfileStep]
  split
  · rfl
  · split
    · split
      · split
        · rfl
        · rfl
      · rename_i h
        exact absurd trivial h
    · rfl

lemma cmdStep_dry (acc : Sys × UpdateResult) (cmd : List Char) :
    (cmdStep true acc cmd).1 = acc.1 := by
  obtain ⟨st, res⟩ := acc
  simp only [cmdStep]
  split
  · rfl
  · split
    · rfl
    · rename_i h h2
      exact absurd trivial h2

lemma includeStep_dry (env : Env) (acc : Sys × UpdateResult) :
    (update_claude_md_include env true acc).1 = acc.1 := by
  obtain ⟨st, res⟩ := acc
  simp only [update_claude_md_include]
  split
  · rfl
  · split
    · split
      · rfl
      · split
        · split
          · rfl
          · rename_i h h2 h3
            exact absurd trivial h3
        · rfl
    · rfl

lemma foldl_fst_const {α : Type} (step : Sys × UpdateResult → α → Sys × UpdateResult)
    (h : ∀ acc x, (step acc x).1 = acc.1) :
    ∀ (l : List α) (acc : Sys × UpdateResult), (l.foldl step acc).1 = acc.1 := by
  intro l
  induction l with
  | nil => intro acc; rfl
  | cons x rest ih =>
      intro acc
      rw [List.foldl_cons, ih, h]

/-- The update decision depends only on the lookups at the path itself. -/
lemma should_congr (fs1 fs2 : List (List Char × List Char)) (m1 m2 : Manifest)
    (p : List Char) (ft : FileType) (force : Bool)
    (hfs : lookupL fs2 p = lookupL fs1 p)
    (hent : lookupL m2.entries p = lookupL m1.entries p) :
    should_update_file fs2 m2 p ft force = should_update_file fs1 m1 p ft force := by
  cases ft <;> simp only [should_update_file, is_file_modified, hfs, hent]

lemma qfileStep_fail (env : Env) (force dryRun : Bool) (acc : Sys × UpdateResult)
    (f : List Char × List Char)
    (hr : lookupL acc.1.resources (resKey f.1) = Option.none) :
    (f.2, ("resource not found").data) ∈ (qfileStep env force dryRun acc f).2.failed
    ∧ (qfileStep env force dryRun acc f).1 = acc.1 := by
  obtain ⟨st, res⟩ := acc
  simp only [qfileStep]
  split
  · exact ⟨List.mem_append_right _ (List.mem_singleton.mpr rfl), rfl⟩
  · rename_i content heq
    rw [hr] at heq
    cases heq

lemma qfileStep_skip (env : Env) (force dryRun : Bool) (acc : Sys × UpdateResult)
    (f : List Char × List Char) (content : List Char)
    (hr : lookupL acc.1.resources (resKey f.1) = some content)
    (hs : should_update_file acc.1.fs acc.1.manifest f.2 (env.cat f.2) force = false) :
    (qfileStep env force dryRun acc f).2.skipped = acc.2.skipped ++ [f.2]
    ∧ (qfileStep env force dryRun acc f).1 = acc.1 := by
  obtain ⟨st, res⟩ := acc
  simp only [qfileStep]
  split
  · rename_i heq
    rw [hr] at heq
    cases heq
  · rename_i content2 heq
    rw [hr] at heq
    injection heq with h2
    subst h2
    split
    · rename_i hcond
      rw [hs] at hcond
      exact absurd hcond (by decide)
    · exact ⟨rfl, rfl⟩

lemma qfileStep_write (env : Env) (force : Bool) (acc : Sys × UpdateResult)
    (f : List Char × List Char) (content : List Char)
    (hr : lookupL acc.1.resources (resKey f.1) = some content)
    (hs : should_update_file acc.1.fs acc.1.manifest f.2 (env.cat f.2) force = true) :
    (qfileStep env force false acc f).2.updated = acc.2.updated ++ [f.2]
    ∧ (qfileStep env force false acc f).2.added = acc.2.added
    ∧ lookupL (qfileStep env force false acc f).1.fs f.2 = some content := by
  obtain ⟨st, res⟩ := acc
  simp only [qfileStep]
  split
  · rename_i heq
    rw [hr] at heq
    cases heq
  · rename_i content2 heq
    rw [hr] at heq
    injection heq with h2
    subst h2
    split
    · split
      · rename_i hd
        exact absurd hd (by decide)
      · split
        · exact ⟨rfl, rfl, lookupL_setL_self st.fs f.2 content⟩
        · rename_i hne
          refine absurd ?_ hne
          rw [lookupL_setL_self]
          rfl
    · rename_i hns
      exact absurd hs hns

lemma qfileStep_bucket (env : Env) (force dryRun : Bool) (acc : Sys × UpdateResult)
    (f : List Char × List Char) :
    f.2 ∈ (qfileStep env force dryRun acc f).2.updated
    ∨ f.2 ∈ (qfileStep env force dryRun acc f).2.skipped
    ∨ f.2 ∈ (qfileStep env force dryRun acc f).2.added
    ∨ ∃ e, (f.2, e) ∈ (qfileStep env force dryRun acc f).2.failed := by
  obtain ⟨st, res⟩ := acc
  simp only [qfileStep]
  split
  · exact Or.inr (Or.inr (Or.inr ⟨("resource not found").data,
      List.mem_append_right _ (List.mem_singleton.mpr rfl)⟩))
  · split
    · split
      · split
        · exact Or.inl (List.mem_append_right _ (List.mem_singleton.mpr rfl))
        · exact Or.inr (Or.inr (Or.inl (List.mem_append_right _ (List.mem_singleton.mpr rfl))))
      · split
        · exact Or.inl (List.mem_append_right _ (List.mem_singleton.mpr rfl))
        · exact Or.inr (Or.inr (Or.inl (List.mem_append_right _ (List.mem_singleton.mpr rfl))))
    · exact Or.inr (Or.inl (List.mem_append_right _ (List.mem_singleton.mpr rfl)))

/-- Every candidate relative path begins with a dot. -/
lemma qpath_head (f : List Char × List Char) (hf : f ∈ qfiles) :
    f.2.head? = some '.' := by
  fin_cases hf <;> rfl

lemma cmdTarget_ne_qpath (f : List Char × List Char) (hf : f ∈ qfiles) (c : List Char) :
    cmdTarget c ≠ f.2 := by
  intro h
  have h1 := qpath_head f hf
  rw [← h] at h1
  cases h1

lemma cmdRel_ne_qpath (f : List Char × List Char) (hf : f ∈ qfiles) (c : List Char) :
    cmdRel c ≠ f.2 := by
  intro h
  have h1 := qpath_head f hf
  rw [← h] at h1
  cases h1

lemma claude_ne_qpath (f : List Char × List Char) (hf : f ∈ qfiles) :
    (("CLAUDE.md").data) ≠ f.2 := by
  intro h
  have h1 := qpath_head f hf
  rw [← h] at h1
  cases h1

lemma claudeCfg_ne_qpath (f : List Char × List Char) (hf : f ∈ qfiles) :
    (("CLAUDE.md (config section)").data) ≠ f.2 := by
  intro h
  have h1 := qpath_head f hf
  rw [← h] at h1
  cases h1

/-- C4: a dry run changes nothing: the filesystem, the on-disk manifest,
the in-memory manifest and even the event trace (so no file write, no
manifest mutation and no save occur) are exactly as before. -/
theorem c4_dry_run_purity (env : Env) (st : Sys) (backup force : Bool) :
    (update env st backup force true).1.fs = st.fs
    ∧ (update env st backup force true).1.manifestDisk = st.manifestDisk
    ∧ (update env st backup force true).1.manifest = st.manifest
    ∧ (update env st backup force true).1.events = st.events := by
  have h : (update env st backup force true).1
      = (update_claude_md_include env true (update_command_files env true
          (update_quaestor_files env force true (prepare env st backup true, emptyResult)))).1 := rfl
  rw [h, includeStep_dry, update_command_files,
    foldl_fst_const (cmdStep true) (fun acc c => cmdStep_dry acc c),
    update_quaestor_files,
    foldl_fst_const (qfileStep env force true) (fun acc f => qfileStep_dry env force acc f),
    prepare_dry]
  exact ⟨rfl, rfl, rfl, rfl⟩

/-- C10: every non-dry-run invocation records the tool version into the
manifest before any file is processed (the trace places the set-version
event before every file event), saves the manifest at the end of the run
(the save event is last and the on-disk manifest equals the final
in-memory manifest), and the saved manifest carries the tool version,
whatever the force and backup options and whatever the per-file actions. -/
theorem c10_version_recorded_and_saved (env : Env) (st : Sys) (backup force : Bool) :
    (∃ T, FileEvs T
      ∧ (update env st backup force false).1.events
          = st.events ++ (if backup then [Ev.backup] else [])
            ++ [Ev.setVersion env.toolVersion] ++ T ++ [Ev.saveManifest])
    ∧ (update env st backup force false).1.manifestDisk
        = (update env st backup force false).1.manifest
    ∧ (update env st backup force false).1.manifestDisk.quaestorVersion
        = some env.toolVersion := by
  obtain ⟨hq1, hq2, hq3, hq4, hq5, T1, hT1, hF1⟩ :=
    (qfold_spec env force false qfiles (prepare env st backup false, emptyResult)).1
  obtain ⟨hc1, hc2, hc3, hc4, hc5, T2, hT2, hF2⟩ :=
    (cmdfold_spec false env.cmdFiles
      (List.foldl (qfileStep env force false) (prepare env st backup false, emptyResult) qfiles)).1
  obtain ⟨hi1, hi2, hi3, hi4, hi5, T3, hT3, hF3⟩ :=
    (includeStep_spec env false
      (List.foldl (cmdStep false)
        (List.foldl (qfileStep env force false) (prepare env st backup false, emptyResult) qfiles)
        env.cmdFiles)).1
  have hu : update env st backup force false
      = ({ (update_claude_md_include env false (List.foldl (cmdStep false)
            (List.foldl (qfileStep env force false) (prepare env st backup false, emptyResult) qfiles)
            env.cmdFiles)).1
            with
            manifestDisk := (update_claude_md_include env false (List.foldl (cmdStep false)
              (List.foldl (qfileStep env force false) (prepare env st backup false, emptyResult) qfiles)
              env.cmdFiles)).1.manifest,
            events := (update_claude_md_include env false (List.foldl (cmdStep false)
              (List.foldl (qfileStep env force false) (prepare env st backup false, emptyResult) qfiles)
              env.cmdFiles)).1.events ++ [Ev.saveManifest] },
         (update_claude_md_include env false (List.foldl (cmdStep false)
            (List.foldl (qfileStep env force false) (prepare env st backup false, emptyResult) qfiles)
            env.cmdFiles)).2) := rfl
  refine ⟨⟨T1 ++ T2 ++ T3, ?_, ?_⟩, ?_, ?_⟩
  · intro e he
    rcases List.mem_append.mp he with h | h
    · rcases List.mem_append.mp h with h2 | h2
      · exact hF1 e h2
      · exact hF2 e h2
    · exact hF3 e h
  · rw [hu]
    show (update_claude_md_include env false (List.foldl (cmdStep false)
        (List.foldl (qfileStep env force false) (prepare env st backup false, emptyResult) qfiles)
        env.cmdFiles)).1.events ++ [Ev.saveManifest] = _
    rw [hT3, hT2, hT1]
    show (prepare env st backup false).events ++ T1 ++ T2 ++ T3 ++ [Ev.saveManifest] = _
    rw [prepare_events_nodry]
    simp [List.append_assoc]
  · rw [hu]
  · rw [hu]
    show (update_claude_md_include env false (List.foldl (cmdStep false)
        (List.foldl (qfileStep env force false) (prepare env st backup false, emptyResult) qfiles)
        env.cmdFiles)).1.manifest.quaestorVersion = some env.toolVersion
    rw [hi3, hc3, hq3]
    show (prepare env st backup false).manifest.quaestorVersion = some env.toolVersion
    rw [prepare_version_nodry]

lemma qfiles_split (f : List Char × List Char) (hf : f ∈ qfiles) :
    ∃ L1 L2, qfiles = L1 ++ f :: L2
      ∧ f.2 ∉ L1.map Prod.snd ∧ f.2 ∉ L2.map Prod.snd := by
  obtain ⟨L1, L2, hLL⟩ := List.append_of_mem hf
  have hnd : (qfiles.map Prod.snd).Nodup := by decide
  rw [hLL, List.map_append, List.map_cons, List.nodup_middle] at hnd
  have h2 := (List.nodup_cons.mp hnd).1
  rw [List.mem_append] at h2
  push_neg at h2
  exact ⟨L1, L2, hLL, h2.1, h2.2⟩

/-- Where one candidate file sits inside a whole update run: at its turn
the lookups that drive its decision agree with the initial state, and the
final result of the run extends the result of its own step only by entries
for other names. -/
lemma update_qfile_analysis (env : Env) (st : Sys) (backup force dryRun : Bool)
    (f : List Char × List Char) (hf : f ∈ qfiles) :
    ∃ accA : Sys × UpdateResult,
      lookupL accA.1.fs f.2 = lookupL st.fs f.2
      ∧ accA.1.resources = st.resources
      ∧ lookupL accA.1.manifest.entries f.2 = lookupL st.manifest.entries f.2
      ∧ (∃ names0, (f.2 ∉ names0) ∧ RDelta emptyResult accA.2 names0)
      ∧ (∃ names, (f.2 ∉ names)
          ∧ RDelta (qfileStep env force dryRun accA f).2 (update env st backup force dryRun).2 names
          ∧ lookupL (update env st backup force dryRun).1.fs f.2
              = lookupL (qfileStep env force dryRun accA f).1.fs f.2) := by
  obtain ⟨L1, L2, hLL, hnm1, hnm2⟩ := qfiles_split f hf
  refine ⟨List.foldl (qfileStep env force dryRun) (prepare env st backup dryRun, emptyResult) L1,
    ?_, ?_, ?_, ?_, ?_⟩
  · obtain ⟨_, _, _, hfs, _, _⟩ :=
      (qfold_spec env force dryRun L1 (prepare env st backup dryRun, emptyResult)).1
    rw [hfs f.2 hnm1]
    show lookupL (prepare env st backup dryRun).fs f.2 = _
    rw [prepare_fs]
  · obtain ⟨hres, _, _, _, _, _⟩ :=
      (qfold_spec env force dryRun L1 (prepare env st backup dryRun, emptyResult)).1
    rw [hres]
    show (prepare env st backup dryRun).resources = _
    rw [prepare_resources]
  · obtain ⟨_, _, _, _, hent, _⟩ :=
      (qfold_spec env force dryRun L1 (prepare env st backup dryRun, emptyResult)).1
    rw [hent f.2 hnm1]
    show lookupL (prepare env st backup dryRun).manifest.entries f.2 = _
    rw [prepare_entries]
  · exact ⟨L1.map Prod.snd, hnm1,
      (qfold_spec env force dryRun L1 (prepare env st backup dryRun, emptyResult)).2⟩
  · have hqq : List.foldl (qfileStep env force dryRun) (prepare env st backup dryRun, emptyResult) qfiles
        = List.foldl (qfileStep env force dryRun)
            (qfileStep env force dryRun
              (List.foldl (qfileStep env force dryRun) (prepare env st backup dryRun, emptyResult) L1) f)
            L2 := by
      rw [hLL, List.foldl_append, List.foldl_cons]
    have hfs_final : (update env st backup force dryRun).1.fs
        = (update_claude_md_include env dryRun (List.foldl (cmdStep dryRun)
            (List.foldl (qfileStep env force dryRun) (prepare env st backup dryRun, emptyResult) qfiles)
            env.cmdFiles)).1.fs := by
      cases dryRun <;> rfl
    have hres_final : (update env st backup force dryRun).2
        = (update_claude_md_include env dryRun (List.foldl (cmdStep dryRun)
            (List.foldl (qfileStep env force dryRun) (prepare env st backup dryRun, emptyResult) qfiles)
            env.cmdFiles)).2 := by
      cases dryRun <;> rfl
    obtain ⟨hs2, hr2⟩ := qfold_spec env force dryRun L2
      (qfileStep env force dryRun
        (List.foldl (qfileStep env force dryRun) (prepare env st backup dryRun, emptyResult) L1) f)
    obtain ⟨hs3, hr3⟩ := cmdfold_spec dryRun env.cmdFiles
      (List.foldl (qfileStep env force dryRun)
        (qfileStep env force dryRun
          (List.foldl (qfileStep env force dryRun) (prepare env st backup dryRun, emptyResult) L1) f)
        L2)
    obtain ⟨hs4, hr4⟩ := includeStep_spec env dryRun
      (List.foldl (cmdStep dryRun)
        (List.foldl (qfileStep env force dryRun)
          (qfileStep env force dryRun
            (List.foldl (qfileStep env force dryRun) (prepare env st backup dryRun, emptyResult) L1) f)
          L2)
        env.cmdFiles)
    refine ⟨L2.map Prod.snd ++ (env.cmdFiles.map cmdRel
        ++ [(("CLAUDE.md (config section)").data), (("CLAUDE.md").data)]), ?_, ?_, ?_⟩
    · intro hmem
      rcases List.mem_append.mp hmem with h | h
      · exact hnm2 h
      · rcases List.mem_append.mp h with h2 | h2
        · obtain ⟨c, _, hc⟩ := List.mem_map.mp h2
          exact cmdRel_ne_qpath f hf c hc
        · rcases List.mem_cons.mp h2 with h3 | h3
          · exact claudeCfg_ne_qpath f hf h3.symm
          · rcases List.mem_cons.mp h3 with h4 | h4
            · exact claude_ne_qpath f hf h4.symm
            · exact absurd h4 (List.not_mem_nil _)
    · rw [hres_final, hqq]
      exact rdelta_trans _ _ _ _ _ hr2 (rdelta_trans _ _ _ _ _ hr3 hr4)
    · rw [hfs_final, hqq]
      obtain ⟨_, _, _, hfs2, _, _⟩ := hs2
      obtain ⟨_, _, _, hfs3, _, _⟩ := hs3
      obtain ⟨_, _, _, hfs4, _, _⟩ := hs4
      rw [hfs4 f.2 (fun hm => claude_ne_qpath f hf (List.mem_singleton.mp hm).symm)]
      rw [hfs3 f.2 (fun hm => by
        obtain ⟨c, _, hc⟩ := List.mem_map.mp hm
        exact cmdTarget_ne_qpath f hf c hc)]
      rw [hfs2 f.2 hnm2]

/-- C1: a candidate file classified UserEditable that exists on disk and is
marked user-modified in the manifest is placed in the skipped sequence by a
non-force update and its content on disk is untouched, whatever the
manifest says (the decision ignores it for user-editable files); with force
the skip is overridden and a non-dry run writes the shipped content. -/
theorem c1_user_editable_policy (env : Env) (st : Sys) (backup dryRun : Bool)
    (f : List Char × List Char) (hf : f ∈ qfiles)
    (hUE : env.cat f.2 = FileType.userEditable)
    (hex : (lookupL st.fs f.2).isSome = true)
    (_hmod : markedUserModified st.manifest f.2 = true)
    (rc : List Char)
    (hres : lookupL st.resources (resKey f.1) = some rc) :
    (f.2 ∈ (update env st backup false dryRun).2.skipped
      ∧ lookupL (update env st backup false dryRun).1.fs f.2 = lookupL st.fs f.2)
    ∧ lookupL (update env st backup true false).1.fs f.2 = some rc := by
  constructor
  · obtain ⟨accA, hfsA, hresA, hentA, _, names, hnmem, hRD, hfsF⟩ :=
      update_qfile_analysis env st backup false dryRun f hf
    have hresf : lookupL accA.1.resources (resKey f.1) = some rc := by
      rw [hresA]
      exact hres
    have hshould : should_update_file accA.1.fs accA.1.manifest f.2 (env.cat f.2) false
        = false := by
      rw [should_congr st.fs accA.1.fs st.manifest accA.1.manifest f.2 (env.cat f.2) false
        hfsA hentA, hUE]
      simp [should_update_file, hex]
    obtain ⟨hsk, hstEq⟩ := qfileStep_skip env false dryRun accA f rc hresf hshould
    constructor
    · obtain ⟨_, ⟨s, hs, _⟩, _, _, _⟩ := hRD
      rw [hs, hsk]
      exact List.mem_append_left _ (List.mem_append_right _ (List.mem_singleton.mpr rfl))
    · rw [hfsF, hstEq, hfsA]
  · obtain ⟨accA, hfsA, hresA, hentA, _, names, hnmem, hRD, hfsF⟩ :=
      update_qfile_analysis env st backup true false f hf
    have hresf : lookupL accA.1.resources (resKey f.1) = some rc := by
      rw [hresA]
      exact hres
    have hshould : should_update_file accA.1.fs accA.1.manifest f.2 (env.cat f.2) true
        = true := by
      simp [should_update_file]
    obtain ⟨hup, hadd, hlook⟩ := qfileStep_write env true accA f rc hresf hshould
    rw [hfsF, hlook]

/-- C1 (witness): a user-editable candidate that exists and is marked
modified, with its shipped resource present. -/
theorem c1_user_editable_policy_witness :
    ((".quaestor/QUAESTOR_CLAUDE.md").data
        ∈ (update ⟨fun _ => FileType.userEditable, [], fun _ => Option.none, [], [], ("1.0").data⟩
            ⟨[(((".quaestor/QUAESTOR_CLAUDE.md").data), ("old").data)],
             [((("quaestor:QUAESTOR_CLAUDE.md").data), ("new").data)],
             ⟨Option.none, [(((".quaestor/QUAESTOR_CLAUDE.md").data),
               ⟨FileType.userEditable, ("1.0").data, ("orig").data, true⟩)]⟩,
             ⟨Option.none, []⟩, []⟩
            false false false).2.skipped
      ∧ lookupL (update ⟨fun _ => FileType.userEditable, [], fun _ => Option.none, [], [], ("1.0").data⟩
            ⟨[(((".quaestor/QUAESTOR_CLAUDE.md").data), ("old").data)],
             [((("quaestor:QUAESTOR_CLAUDE.md").data), ("new").data)],
             ⟨Option.none, [(((".quaestor/QUAESTOR_CLAUDE.md").data),
               ⟨FileType.userEditable, ("1.0").data, ("orig").data, true⟩)]⟩,
             ⟨Option.none, []⟩, []⟩
            false false false).1.fs ((".quaestor/QUAESTOR_CLAUDE.md").data)
          = lookupL [(((".quaestor/QUAESTOR_CLAUDE.md").data), ("old").data)]
              ((".quaestor/QUAESTOR_CLAUDE.md").data))
    ∧ lookupL (update ⟨fun _ => FileType.userEditable, [], fun _ => Option.none, [], [], ("1.0").data⟩
          ⟨[(((".quaestor/QUAESTOR_CLAUDE.md").data), ("old").data)],
           [((("quaestor:QUAESTOR_CLAUDE.md").data), ("new").data)],
           ⟨Option.none, [(((".quaestor/QUAESTOR_CLAUDE.md").data),
             ⟨FileType.userEditable, ("1.0").data, ("orig").data, true⟩)]⟩,
           ⟨Option.none, []⟩, []⟩
          false true false).1.fs ((".quaestor/QUAESTOR_CLAUDE.md").data)
        = some (("new").data) :=
  c1_user_editable_policy
    ⟨fun _ => FileType.userEditable, [], fun _ => Option.none, [], [], ("1.0").data⟩
    ⟨[(((".quaestor/QUAESTOR_CLAUDE.md").data), ("old").data)],
     [((("quaestor:QUAESTOR_CLAUDE.md").data), ("new").data)],
     ⟨Option.none, [(((".quaestor/QUAESTOR_CLAUDE.md").data),
       ⟨FileType.userEditable, ("1.0").data, ("orig").data, true⟩)]⟩,
     ⟨Option.none, []⟩, []⟩ false false
    ((("QUAESTOR_CLAUDE.md").data), ((".quaestor/QUAESTOR_CLAUDE.md").data))
    (by decide) rfl (by rfl) (by rfl) (("new").data) (by rfl)

/-- C5: per-file failure isolation.  If the shipped resource of a candidate
file is missing, the pair of its path and the error text is appended to the
failed sequence; and every candidate file of the run, this one and the
remaining ones alike, still lands in exactly one of the four sequences, so
the run completes and returns a result. -/
theorem c5_failure_isolation (env : Env) (st : Sys) (backup force dryRun : Bool)
    (f : List Char × List Char) (hf : f ∈ qfiles) :
    (lookupL st.resources (resKey f.1) = Option.none →
      (f.2, ("resource not found").data) ∈ (update env st backup force dryRun).2.failed)
    ∧ (f.2 ∈ (update env st backup force dryRun).2.updated
       ∨ f.2 ∈ (update env st backup force dryRun).2.skipped
       ∨ f.2 ∈ (update env st backup force dryRun).2.added
       ∨ ∃ e, (f.2, e) ∈ (update env st backup force dryRun).2.failed) := by
  obtain ⟨accA, hfsA, hresA, hentA, _, names, hnmem, hRD, hfsF⟩ :=
    update_qfile_analysis env st backup force dryRun f hf
  constructor
  · intro hmiss
    have hr0 : lookupL accA.1.resources (resKey f.1) = Option.none := by
      rw [hresA]
      exact hmiss
    obtain ⟨hmem, _⟩ := qfileStep_fail env force dryRun accA f hr0
    obtain ⟨_, _, _, ⟨fl, hfl, _⟩, _⟩ := hRD
    rw [hfl]
    exact List.mem_append_left _ hmem
  · have hbucket := qfileStep_bucket env force dryRun accA f
    obtain ⟨⟨u, hu, _⟩, ⟨s, hs, _⟩, ⟨a, ha, _⟩, ⟨fl, hfl, _⟩, _⟩ := hRD
    rcases hbucket with h | h | h | ⟨e, h⟩
    · exact Or.inl (by rw [hu]; exact List.mem_append_left _ h)
    · exact Or.inr (Or.inl (by rw [hs]; exact List.mem_append_left _ h))
    · exact Or.inr (Or.inr (Or.inl (by rw [ha]; exact List.mem_append_left _ h)))
    · exact Or.inr (Or.inr (Or.inr ⟨e, by rw [hfl]; exact List.mem_append_left _ h⟩))

/-- C5 (witness): a run where the only resource of the candidate is absent. -/
theorem c5_failure_isolation_witness :
    (lookupL ([] : List (List Char × List Char))
        (resKey (("QUAESTOR_CLAUDE.md").data)) = Option.none →
      (((".quaestor/QUAESTOR_CLAUDE.md").data), ("resource not found").data)
        ∈ (update ⟨fun _ => FileType.system, [], fun _ => Option.none, [], [], ("1.0").data⟩
            ⟨[], [], ⟨Option.none, []⟩, ⟨Option.none, []⟩, []⟩ false false false).2.failed)
    ∧ (((".quaestor/QUAESTOR_CLAUDE.md").data)
        ∈ (update ⟨fun _ => FileType.system, [], fun _ => Option.none, [], [], ("1.0").data⟩
            ⟨[], [], ⟨Option.none, []⟩, ⟨Option.none, []⟩, []⟩ false false false).2.updated
       ∨ ((".quaestor/QUAESTOR_CLAUDE.md").data)
        ∈ (update ⟨fun _ => FileType.system, [], fun _ => Option.none, [], [], ("1.0").data⟩
            ⟨[], [], ⟨Option.none, []⟩, ⟨Option.none, []⟩, []⟩ false false false).2.skipped
       ∨ ((".quaestor/QUAESTOR_CLAUDE.md").data)
        ∈ (update ⟨fun _ => FileType.system, [], fun _ => Option.none, [], [], ("1.0").data⟩
            ⟨[], [], ⟨Option.none, []⟩, ⟨Option.none, []⟩, []⟩ false false false).2.added
       ∨ ∃ e, (((".quaestor/QUAESTOR_CLAUDE.md").data), e)
        ∈ (update ⟨fun _ => FileType.system, [], fun _ => Option.none, [], [], ("1.0").data⟩
            ⟨[], [], ⟨Option.none, []⟩, ⟨Option.none, []⟩, []⟩ false false false).2.failed) :=
  c5_failure_isolation
    ⟨fun _ => FileType.system, [], fun _ => Option.none, [], [], ("1.0").data⟩
    ⟨[], [], ⟨Option.none, []⟩, ⟨Option.none, []⟩, []⟩ false false false
    ((("QUAESTOR_CLAUDE.md").data), ((".quaestor/QUAESTOR_CLAUDE.md").data)) (by decide)

/-- C9: in a non-dry run, a candidate file whose shipped resource is
readable and whose decision is to write lands in the updated sequence, and
its path is never in the added sequence, even when the file did not exist
before the run: the classification checks existence only after the write,
which always finds the file present. -/
theorem c9_updated_never_added (env : Env) (st : Sys) (backup force : Bool)
    (f : List Char × List Char) (hf : f ∈ qfiles) (rc : List Char)
    (hres : lookupL st.resources (resKey f.1) = some rc)
    (hshould : should_update_file st.fs st.manifest f.2 (env.cat f.2) force = true) :
    f.2 ∈ (update env st backup force false).2.updated
    ∧ f.2 ∉ (update env st backup force false).2.added := by
  obtain ⟨accA, hfsA, hresA, hentA, ⟨names0, hnm0, hRD0⟩, names, hnmem, hRD, hfsF⟩ :=
    update_qfile_analysis env st backup force false f hf
  have hresf : lookupL accA.1.resources (resKey f.1) = some rc := by
    rw [hresA]
    exact hres
  have hshouldA : should_update_file accA.1.fs accA.1.manifest f.2 (env.cat f.2) force
      = true := by
    rw [should_congr st.fs accA.1.fs st.manifest accA.1.manifest f.2 (env.cat f.2) force
      hfsA hentA]
    exact hshould
  obtain ⟨hup, hadd, _⟩ := qfileStep_write env force accA f rc hresf hshouldA
  obtain ⟨⟨u, hu, _⟩, _, ⟨a, ha, han⟩, _, _⟩ := hRD
  obtain ⟨_, _, ⟨a0, ha0, han0⟩, _, _⟩ := hRD0
  constructor
  · rw [hu, hup]
    exact List.mem_append_left _ (List.mem_append_right _ (List.mem_singleton.mpr rfl))
  · rw [ha, hadd]
    intro hmem
    rcases List.mem_append.mp hmem with h | h
    · rw [ha0] at h
      rcases List.mem_append.mp h with h2 | h2
      · exact absurd h2 (List.not_mem_nil _)
      · exact hnm0 (han0 f.2 h2)
    · exact hnmem (han f.2 h)

/-- C9 (witness): a system candidate absent from disk, written by a
non-dry run, lands in updated and not in added. -/
theorem c9_updated_never_added_witness :
    ((".quaestor/QUAESTOR_CLAUDE.md").data)
      ∈ (update ⟨fun _ => FileType.system, [], fun _ => Option.none, [], [], ("1.0").data⟩
          ⟨[], [((("quaestor:QUAESTOR_CLAUDE.md").data), ("new").data)],
           ⟨Option.none, []⟩, ⟨Option.none, []⟩, []⟩ false false false).2.updated
    ∧ ((".quaestor/QUAESTOR_CLAUDE.md").data)
      ∉ (update ⟨fun _ => FileType.system, [], fun _ => Option.none, [], [], ("1.0").data⟩
          ⟨[], [((("quaestor:QUAESTOR_CLAUDE.md").data), ("new").data)],
           ⟨Option.none, []⟩, ⟨Option.none, []⟩, []⟩ false false false).2.added :=
  c9_updated_never_added
    ⟨fun _ => FileType.system, [], fun _ => Option.none, [], [], ("1.0").data⟩
    ⟨[], [((("quaestor:QUAESTOR_CLAUDE.md").data), ("new").data)],
     ⟨Option.none, []⟩, ⟨Option.none, []⟩, []⟩ false false
    ((("QUAESTOR_CLAUDE.md").data), ((".quaestor/QUAESTOR_CLAUDE.md").data))
    (by decide) (("new").data) (by rfl) (by rfl)

end Quaestor
